import Mathlib

/-!
Shallow embedding of `rpctest/votingwallet.go` (package rpctest of the dcrd
test harness): the simulated voting wallet that purchases stake tickets and
casts votes to keep a test chain alive past stake-validation height.

External collaborators (RPC transport, script derivation, signing, subsidy
calculation, transaction validation, the node mempool) are out of scope per the
design; each external call a handler makes is represented by a field of an
environment record that supplies that call's result.  Machine integers (int64,
uint32) are modelled as `Int`/`Nat`; the amounts involved stay far below 2^63
in every scenario considered, so wrap-around is not modelled.  Go's `/` on
int64 truncates toward zero and is rendered as `Int.tdiv`.
-/

set_option autoImplicit false

/-- Byte strings (scripts, signatures) are opaque lists of bytes. -/
abbrev Script := List Nat

/-- Transaction / block hashes (chainhash.Hash) are opaque identifiers. -/
abbrev Hash := Nat

/-- wire.OutPoint: reference to a transaction output. -/
structure OutPoint where
  hash : Hash
  index : Nat
  tree : Int
deriving DecidableEq, Repr

/-- wire.TxTreeRegular. -/
def txTreeRegular : Int := 0

/-- wire.TxTreeStake. -/
def txTreeStake : Int := 1

/-- wire.NullValueIn (placeholder input value). -/
def nullValueIn : Int := -1

/-- wire.TxVersion. -/
def txVersion : Nat := 1

/-- wire.TxVersionTreasury. -/
def txVersionTreasury : Nat := 3

/-- wire.TxIn. -/
structure TxIn where
  previousOutPoint : OutPoint
  valueIn : Int
  signatureScript : Script
deriving DecidableEq, Repr

/-- wire.TxOut. -/
structure TxOut where
  value : Int
  version : Nat
  pkScript : Script
deriving DecidableEq, Repr

/-- wire.MsgTx restricted to the fields the voting wallet sets. -/
structure MsgTx where
  version : Nat
  txIn : List TxIn
  txOut : List TxOut
deriving DecidableEq, Repr

/-- utxoInfo (votingwallet.go): an unspent outpoint with its amount. -/
structure utxoInfo where
  outpoint : OutPoint
  amount : Int
deriving DecidableEq, Repr

/-- ticketInfo (votingwallet.go): data tracked per outstanding ticket. -/
structure ticketInfo where
  ticketPrice : Int
deriving DecidableEq, Repr

/-- stake.TreasuryVoteTuple: a tspend hash with a one-byte vote. -/
structure TreasuryVoteTuple where
  hash : Hash
  vote : Nat
deriving DecidableEq, Repr

/-- chaincfg.Params restricted to the fields votingwallet.go reads. -/
structure Params where
  ticketsPerBlock : Nat
  ticketMaturity : Nat
  coinbaseMaturity : Nat
  stakeValidationHeight : Int
  minimumStakeDiff : Int
  stakeBaseSigScript : Script
deriving DecidableEq, Repr

/-- commitAmountMultiplier (votingwallet.go). -/
def commitAmountMultiplier : Int := 4

/-- nullPay2SSTXChange: the burn script used on sstxchange outputs. -/
def nullPay2SSTXChange : Script :=
  [0xbd, 0xa9, 0x14, 0x00, 0x00, 0x00, 0x00, 0x00,
   0x00, 0x00, 0x00, 0x00, 0x00, 0x00, 0x00, 0x00,
   0x00, 0x00, 0x00, 0x00, 0x00, 0x00, 0x00, 0x87]

/-- stakebaseOutPoint: the fixed outpoint of stakebase inputs
(zero hash, index math.MaxUint32, regular tree). -/
def stakebaseOutPoint : OutPoint :=
  { hash := 0, index := 2 ^ 32 - 1, tree := txTreeRegular }

/-- Go map lookup on an association list (Go maps have unique keys; the
wallet only builds its maps through `alInsert`/`alErase`, which keep keys
unique when they start unique). -/
def alLookup {α β : Type} [DecidableEq α] : List (α × β) → α → Option β
  | [], _ => none
  | (k, v) :: t, k' => if k = k' then some v else alLookup t k'

/-- Go map assignment `m[k] = v`: replaces the value at an existing key,
otherwise adds the binding. -/
def alInsert {α β : Type} [DecidableEq α] : List (α × β) → α → β → List (α × β)
  | [], k, v => [(k, v)]
  | (k', v') :: t, k, v =>
    if k' = k then (k, v) :: t else (k', v') :: alInsert t k v

/-- Go map `delete(m, k)`: removes the binding at `k` (the first occurrence;
Go map keys are unique). -/
def alErase {α β : Type} [DecidableEq α] : List (α × β) → α → List (α × β)
  | [], _ => []
  | (k', v') :: t, k => if k' = k then t else (k', v') :: alErase t k

/-- VotingWallet: the mutable state owned by the event loop, plus the output
scripts fixed at construction.  The harness pointer, RPC client, subsidy
cache, notification channels and callbacks are external collaborators and are
not part of the embedded state. -/
structure VotingWallet where
  utxos : List utxoInfo
  tickets : List (Hash × ticketInfo)
  maturingVotes : List (Int × List utxoInfo)
  tspendVotes : List TreasuryVoteTuple
  limitNbVotes : Int
  p2sstxVer : Nat
  p2sstx : Script
  commitScriptVer : Nat
  commitScript : Script
  p2pkhVer : Nat
  p2pkh : Script
  voteScriptVer : Nat
  voteScript : Script
  voteRetScriptVer : Nat
  voteRetScript : Script
deriving DecidableEq, Repr

/-- ticketPurchaseStartHeight (votingwallet.go):
StakeValidationHeight - TicketMaturity - 2. -/
def ticketPurchaseStartHeight (net : Params) : Int :=
  net.stakeValidationHeight - (net.ticketMaturity : Int) - 2

/-- requiredTicketCount (votingwallet.go):
(CoinbaseMaturity + TicketMaturity + 2) * TicketsPerBlock. -/
def requiredTicketCount (net : Params) : Nat :=
  (net.coinbaseMaturity + net.ticketMaturity + 2) * net.ticketsPerBlock

/-- Errors LimitNbVotes can return, with their exact Go messages. -/
inductive LimitError
  | negative
  | cannotIncrease
deriving DecidableEq, Repr

/-- Go error message of each LimitNbVotes error. -/
def LimitError.message : LimitError → String
  | .negative => "cannot use negative number of votes"
  | .cannotIncrease => "cannot increase number of votes"

/-- LimitNbVotes (votingwallet.go lines 296-307): rejects negative limits and
increases; otherwise stores the new limit.  Returns the updated wallet
(receiver state after the call) and the error, if any. -/
def LimitNbVotes (w : VotingWallet) (newLimit : Int) :
    VotingWallet × Option LimitError :=
  if newLimit < 0 then (w, some .negative)
  else if newLimit > w.limitNbVotes then (w, some .cannotIncrease)
  else ({ w with limitNbVotes := newLimit }, none)

/-- wire.BlockHeader restricted to the fields the purchase handler reads
(Height is uint32, SBits int64). -/
structure BlockHeader where
  height : Nat
  sBits : Int
deriving DecidableEq, Repr

/-- Environment of one handleBlockConnectedNtfn invocation: results of the
external calls it makes.  `decodedHeader` is the result of
`header.FromBytes(ntfn.blockHeader)` (none = decode error);
`signatureScript i prev` is the result of `sign.SignatureScript` for ticket
`i` with previous-output script `prev` (none = signing error); `sendResult i`
is the result of `promises[i].Receive()` — the accepted transaction's hash, or
none for a broadcast failure. -/
structure BlockEnv where
  decodedHeader : Option BlockHeader
  signatureScript : Nat → Script → Option Script
  sendResult : Nat → Option Hash

/-- Point at which handleBlockConnectedNtfn returned. -/
inductive BlockOutcome
  | headerErr
  | belowPurchaseHeight
  | insufficientUtxos
  | signErr (i : Nat)
  | sendErr (i : Nat)
  | ok
deriving DecidableEq, Repr

/-- Result of one handleBlockConnectedNtfn invocation: the wallet state at
return time and where the handler returned. -/
structure BlockResult where
  wallet : VotingWallet
  outcome : BlockOutcome
deriving Repr

/-- Replace the signature script of input `idx` of a transaction
(`t.TxIn[idx].SignatureScript = sig`; every transaction the wallet builds has
the indexed input, so the out-of-range fallback is unreachable). -/
def setSigScript (t : MsgTx) (idx : Nat) (sig : Script) : MsgTx :=
  match t.txIn.get? idx with
  | some txin =>
    { t with txIn := t.txIn.set idx { txin with signatureScript := sig } }
  | none => t

/-- Ticket transaction built at votingwallet.go lines 438-446 for one selected
utxo: one input spending the fund, outputs = voting-rights output at the
ticket price, zero-value reward commitment, and all remaining change to the
null burn script. -/
def buildTicket (w : VotingWallet) (ticketPrice commitAmount : Int)
    (u : utxoInfo) : MsgTx :=
  { version := txVersion
  , txIn := [{ previousOutPoint := u.outpoint, valueIn := nullValueIn,
               signatureScript := [] }]
  , txOut := [ { value := ticketPrice, version := w.p2sstxVer, pkScript := w.p2sstx }
             , { value := 0, version := w.commitScriptVer, pkScript := w.commitScript }
             , { value := u.amount - commitAmount, version := 0,
                 pkScript := nullPay2SSTXChange } ] }

/-- Build-and-sign loop of the purchase handler (lines 438-460): ticket `i`
spends selected utxo `i`; the previous-output script passed to the signer is
the payment script, or the vote-payout script when the fund came from a vote
(stake tree).  Returns the signed tickets, or the index of the first signing
failure (the handler returns there with no further state change). -/
def signTickets (w : VotingWallet) (env : BlockEnv)
    (ticketPrice commitAmount : Int) : Nat → List utxoInfo →
    Except Nat (List MsgTx)
  | _, [] => .ok []
  | i, u :: us =>
    let t := buildTicket w ticketPrice commitAmount u
    let prevScript := if u.outpoint.tree = txTreeStake then w.voteRetScript
                      else w.p2pkh
    match env.signatureScript i prevScript with
    | none => .error i
    | some sig =>
      match signTickets w env ticketPrice commitAmount (i + 1) us with
      | .error j => .error j
      | .ok rest => .ok (setSigScript t 0 sig :: rest)

/-- Receive loop of the purchase handler (lines 468-478): awaits the `n`
submission results starting at index `i`, recording each accepted ticket's
hash in the ticket map at the computed price; at the first failure it stops,
returning the map updated for the earlier indices and the failing index. -/
def receiveTickets (send : Nat → Option Hash) (ticketPrice : Int)
    (tickets : List (Hash × ticketInfo)) : Nat → Nat →
    List (Hash × ticketInfo) × Option Nat
  | _, 0 => (tickets, none)
  | i, n + 1 =>
    match send i with
    | none => (tickets, some i)
    | some h =>
      receiveTickets send ticketPrice
        (alInsert tickets h { ticketPrice := ticketPrice }) (i + 1) n

/-- handleBlockConnectedNtfn (votingwallet.go lines 403-485), the ticket
purchase handler.  Decodes the header; below the purchase start height it is
a no-op.  Otherwise it requires TicketsPerBlock available utxos, consumes the
most recently added ones, builds, signs and submits one ticket per fund at
price SBits + SBits/6, records each accepted ticket, and finally moves any
maturing votes registered at this height into the unlocked pool. -/
def handleBlockConnectedNtfn (net : Params) (w : VotingWallet)
    (env : BlockEnv) : BlockResult :=
  match env.decodedHeader with
  | none => { wallet := w, outcome := .headerErr }
  | some header =>
    let blockHeight : Int := (header.height : Int)
    if blockHeight < ticketPurchaseStartHeight net then
      { wallet := w, outcome := .belowPurchaseHeight }
    else
      let nbTickets := net.ticketsPerBlock
      if w.utxos.length < nbTickets then
        { wallet := w, outcome := .insufficientUtxos }
      else
        let ticketPrice := header.sBits + header.sBits.tdiv 6
        let commitAmount := net.minimumStakeDiff * commitAmountMultiplier
        let selected := w.utxos.drop (w.utxos.length - nbTickets)
        let w1 := { w with utxos := w.utxos.take (w.utxos.length - nbTickets) }
        match signTickets w env ticketPrice commitAmount 0 selected with
        | .error i => { wallet := w1, outcome := .signErr i }
        | .ok _tickets =>
          match receiveTickets env.sendResult ticketPrice w1.tickets 0 nbTickets with
          | (tks, some i) =>
            { wallet := { w1 with tickets := tks }, outcome := .sendErr i }
          | (tks, none) =>
            let w2 := { w1 with tickets := tks }
            match alLookup w2.maturingVotes blockHeight with
            | some maturing =>
              { wallet :=
                  { w2 with utxos := w2.utxos ++ maturing,
                            maturingVotes := alErase w2.maturingVotes blockHeight }
              , outcome := .ok }
            | none => { wallet := w2, outcome := .ok }

/-- winningTicketsNtfn (votingwallet.go): hash and height of the winning
block together with the drawn ticket hashes, in draw order. -/
structure winningTicketsNtfn where
  blockHash : Hash
  blockHeight : Int
  winningTickets : List Hash
deriving DecidableEq, Repr

/-- Environment of one handleWinningTicketsNtfn invocation: results of its
external calls.  `blockRefScript` is the result of
`txscript.GenerateSSGenBlockRef` (none = error); `subsidy` the result of
`subsidyCache.CalcStakeVoteSubsidyV2`; `tspendScript i` the result of the
script builder for the tspend OP_RETURN output of vote `i` (built from the
fixed two-byte tag followed by each tuple's hash and vote byte);
`signatureScript i prev` the signing result for vote `i`; `checkSSGen i`
whether `stake.CheckSSGen` accepts vote `i`; `sendResult i` the hash returned
for vote `i` by `promises[i].Receive()`, or none on broadcast failure. -/
structure VoteEnv where
  blockRefScript : Option Script
  subsidy : Int
  tspendScript : Nat → Option Script
  signatureScript : Nat → Script → Option Script
  checkSSGen : Nat → Bool
  sendResult : Nat → Option Hash

/-- Point at which handleWinningTicketsNtfn returned.  `indexPanic i` is the
Go runtime panic raised by `votes[nbVotes]` when `nbVotes = i` is not below
the array length `limitNbVotes`; `makePanic` the panic of
`make([]wire.MsgTx, n)` for negative `n` (unreachable: the limit is never
negative). -/
inductive VoteOutcome
  | blockRefErr
  | makePanic
  | indexPanic (i : Nat)
  | tspendScriptErr
  | signErr
  | checkSSGenErr
  | sendErr (i : Nat)
  | ok (nbVotes : Nat)
deriving DecidableEq, Repr

/-- Result of one handleWinningTicketsNtfn invocation. -/
structure VoteResult where
  wallet : VotingWallet
  outcome : VoteOutcome
deriving Repr

/-- Core vote transaction built at votingwallet.go lines 529-541 for an owned
winning ticket: a stakebase input carrying the subsidy with the fixed
signature script, an input spending the ticket's voting-rights output, and
outputs = block reference (zero value), fixed vote-disposition output, and
the payout of ticketPrice + subsidy to the vote-payout script. -/
def buildVoteBase (net : Params) (w : VotingWallet) (blockRef : Script)
    (subsidy voteRetValue : Int) (wt : Hash) : MsgTx :=
  { version := txVersion
  , txIn := [ { previousOutPoint := stakebaseOutPoint, valueIn := subsidy,
                signatureScript := net.stakeBaseSigScript }
            , { previousOutPoint := { hash := wt, index := 0, tree := txTreeStake },
                valueIn := nullValueIn, signatureScript := [] } ]
  , txOut := [ { value := 0, version := 0, pkScript := blockRef }
             , { value := 0, version := w.voteScriptVer, pkScript := w.voteScript }
             , { value := voteRetValue, version := w.voteRetScriptVer,
                 pkScript := w.voteRetScript } ] }

/-- One step of the winning-ticket loop body (votingwallet.go lines 521-578)
for drawn ticket `wt`, with `nbVotes` votes already built.  Skips tickets the
wallet does not own.  For an owned ticket: the `votes[nbVotes]` access panics
unless nbVotes is below the vote-array length `limitNbVotes`; otherwise the
vote is built (with the extra treasury output and treasury version when
tspend votes are configured), signed on input 1, and checked by CheckSSGen. -/
inductive VoteStep
  | skip
  | fail (o : VoteOutcome)
  | built (v : MsgTx)
deriving DecidableEq, Repr

/-- Loop body for one drawn ticket; see `VoteStep`. -/
def processWinner (net : Params) (w : VotingWallet) (env : VoteEnv)
    (blockRef : Script) (nbVotes : Nat) (wt : Hash) : VoteStep :=
  match alLookup w.tickets wt with
  | none => .skip
  | some ticket =>
    if (nbVotes : Int) ≥ w.limitNbVotes then .fail (.indexPanic nbVotes)
    else
      let voteRetValue := ticket.ticketPrice + env.subsidy
      let base := buildVoteBase net w blockRef env.subsidy voteRetValue wt
      let withTSpend : Except VoteOutcome MsgTx :=
        if w.tspendVotes.length > 0 then
          match env.tspendScript nbVotes with
          | none => .error .tspendScriptErr
          | some s =>
            .ok { base with
                  txOut := base.txOut ++ [{ value := 0, version := 0, pkScript := s }],
                  version := txVersionTreasury }
        else .ok base
      match withTSpend with
      | .error o => .fail o
      | .ok vote0 =>
        match env.signatureScript nbVotes w.p2sstx with
        | none => .fail .signErr
        | some sig =>
          let vote := setSigScript vote0 1 sig
          if env.checkSSGen nbVotes then .built vote
          else .fail .checkSSGenErr

/-- Winning-ticket loop (votingwallet.go lines 521-584): processes the drawn
tickets in draw order, accumulating the built votes (`built.length` plays the
role of `nbVotes`); after building a vote the loop stops early once the vote
limit is reached (`if nbVotes >= w.limitNbVotes break`). -/
def buildVotes (net : Params) (w : VotingWallet) (env : VoteEnv)
    (blockRef : Script) : List Hash → List MsgTx →
    Except VoteOutcome (List MsgTx)
  | [], built => .ok built
  | wt :: rest, built =>
    match processWinner net w env blockRef built.length wt with
    | .skip => buildVotes net w env blockRef rest built
    | .fail o => .error o
    | .built v =>
      let built1 := built ++ [v]
      if (built1.length : Int) ≥ w.limitNbVotes then .ok built1
      else buildVotes net w env blockRef rest built1

/-- Publish loop of the vote handler (lines 589-603): awaits each submission
result in order; the first failure aborts the handler (error = failing
index).  On success, records for each vote the payout outpoint (output 2 of
the accepted transaction, stake tree) with that output's value. -/
def sendVotes (send : Nat → Option Hash) : Nat → List MsgTx →
    Except Nat (List utxoInfo)
  | _, [] => .ok []
  | i, v :: vs =>
    match send i with
    | none => .error i
    | some h =>
      match sendVotes send (i + 1) vs with
      | .error j => .error j
      | .ok rest =>
        .ok ({ outpoint := { hash := h, index := 2, tree := txTreeStake },
               amount := (v.txOut.getD 2 { value := 0, version := 0,
                                           pkScript := [] }).value } :: rest)

/-- handleWinningTicketsNtfn (votingwallet.go lines 497-607), the vote
handler.  Builds the block-reference script, computes the subsidy, builds at
most limitNbVotes votes for the owned tickets among the winners, submits them
all, and on full success stores the resulting payouts in the maturing-votes
schedule at blockHeight + CoinbaseMaturity.  No state is mutated on any
earlier return. -/
def handleWinningTicketsNtfn (net : Params) (w : VotingWallet)
    (ntfn : winningTicketsNtfn) (env : VoteEnv) : VoteResult :=
  match env.blockRefScript with
  | none => { wallet := w, outcome := .blockRefErr }
  | some blockRef =>
    if w.limitNbVotes < 0 then { wallet := w, outcome := .makePanic }
    else
      match buildVotes net w env blockRef ntfn.winningTickets [] with
      | .error o => { wallet := w, outcome := o }
      | .ok votes =>
        match sendVotes env.sendResult 0 votes with
        | .error i => { wallet := w, outcome := .sendErr i }
        | .ok newUtxos =>
          let maturingHeight := ntfn.blockHeight + (net.coinbaseMaturity : Int)
          { wallet :=
              { w with maturingVotes :=
                  alInsert w.maturingVotes maturingHeight newUtxos }
          , outcome := .ok votes.length }

/-- One `select` resolution inside the wait loop of GenerateBlocks
(votingwallet.go lines 350-375): either the fast test timer fired and the
mempool was polled (`test` carries the GetRawMempool ticket and vote counts),
or the overall 5-second timeout fired (`timeout` carries the counts of the
fresh mempool query made in that branch), or the context was cancelled. -/
inductive PollEvent
  | test (tickets votes : Nat)
  | timeout (tickets votes : Nat)
  | cancel
deriving DecidableEq, Repr

/-- Environment of one iteration of GenerateBlocks: the miner call result
(none = error) and the successive `select` resolutions of the wait loop. -/
structure GenIterEnv where
  minerResult : Option (List Hash)
  events : List PollEvent
deriving Repr

/-- Result of the wait loop of one GenerateBlocks iteration.  `exhausted`
marks an event list that ended without a timeout, cancellation or successful
poll — impossible in the real program, where the 5-second timer always
eventually fires. -/
inductive WaitResult
  | proceed
  | timedOut (notGot : List String)
  | cancelled
  | exhausted
deriving DecidableEq, Repr

/-- Wait loop of GenerateBlocks (lines 350-375).  On a poll, the loop is done
when (tickets not needed or the mempool ticket count is at least nbVotes) and
(votes not needed or the mempool vote count is at least nbVotes) — the ticket
count is compared against nbVotes, exactly as in the source.  On timeout the
error names "votes" when the vote count differs from nbVotes and "tickets"
when the ticket count differs from nbTickets, in that order. -/
def genWaitLoop (needsTickets needsVotes : Bool) (nbVotes : Int)
    (nbTickets : Nat) : List PollEvent → WaitResult
  | [] => .exhausted
  | .timeout tickets votes :: _ =>
    let notGot := (if (votes : Int) ≠ nbVotes then ["votes"] else []) ++
                  (if tickets ≠ nbTickets then ["tickets"] else [])
    .timedOut notGot
  | .cancel :: _ => .cancelled
  | .test tickets votes :: rest =>
    let gotAllReqs := (!needsTickets || ((tickets : Int) ≥ nbVotes)) &&
                      (!needsVotes || ((votes : Int) ≥ nbVotes))
    if gotAllReqs then .proceed
    else genWaitLoop needsTickets needsVotes nbVotes nbTickets rest

/-- Result of GenerateBlocks.  `minerEmptyPanic` is the `h[0]` index panic on
an empty miner result; `stuck` corresponds to `WaitResult.exhausted` or to an
environment providing fewer iteration records than requested blocks (both
impossible in the real program). -/
inductive GenOutcome
  | ok (hashes : List Hash)
  | minerErr (height : Int)
  | minerEmptyPanic
  | timeoutErr (notGot : List String) (height : Int)
  | cancelErr
  | stuck
deriving DecidableEq, Repr

/-- Iteration loop of GenerateBlocks (lines 332-376): for block `i` of the
remaining `n`, the new block's height is startHeight + i + 1; the miner is
invoked for one block; votes are required from StakeValidationHeight - 1 and
tickets from the purchase start height; when neither is required the loop
proceeds immediately, otherwise the wait loop runs.  The wallet state is
threaded through unchanged — the Go method performs no writes. -/
def generateBlocksLoop (net : Params) (w : VotingWallet) (nbVotes : Int)
    (nbTickets : Nat) (startHeight : Int) :
    Nat → Nat → List GenIterEnv → List Hash → GenOutcome × VotingWallet
  | _, 0, _, acc => (.ok acc.reverse, w)
  | _, _ + 1, [], _ => (.stuck, w)
  | i, n + 1, env :: envs, acc =>
    let genHeight := startHeight + (i : Int) + 1
    match env.minerResult with
    | none => (.minerErr genHeight, w)
    | some hs =>
      match hs.head? with
      | none => (.minerEmptyPanic, w)
      | some h =>
        let needsVotes := genHeight ≥ net.stakeValidationHeight - 1
        let needsTickets := genHeight ≥ ticketPurchaseStartHeight net
        if !needsVotes && !needsTickets then
          generateBlocksLoop net w nbVotes nbTickets startHeight (i + 1) n envs (h :: acc)
        else
          match genWaitLoop needsTickets needsVotes nbVotes nbTickets env.events with
          | .proceed =>
            generateBlocksLoop net w nbVotes nbTickets startHeight (i + 1) n envs (h :: acc)
          | .timedOut notGot => (.timeoutErr notGot genHeight, w)
          | .cancelled => (.cancelErr, w)
          | .exhausted => (.stuck, w)

/-- GenerateBlocks (votingwallet.go lines 317-379): generates `nb` blocks,
waiting after each for the expected tickets and votes to appear in the
mempool.  `startHeight` is the best-block height reported by the node;
`envs` supplies, per iteration, the miner result and the wait-loop events.
Snapshots nbVotes := w.limitNbVotes and nbTickets := TicketsPerBlock at
entry, as the source does.  Returns the outcome and the wallet state after
the call. -/
def GenerateBlocks (net : Params) (w : VotingWallet) (startHeight : Int)
    (nb : Nat) (envs : List GenIterEnv) : GenOutcome × VotingWallet :=
  generateBlocksLoop net w w.limitNbVotes (net.ticketsPerBlock) startHeight 0 nb envs []

/-- Total amount held in a utxo list. -/
def utxosTotal (us : List utxoInfo) : Int := (us.map (fun u => u.amount)).sum

/-- Total amount locked in the outstanding tickets of the ticket map. -/
def ticketsTotal (tks : List (Hash × ticketInfo)) : Int :=
  (tks.map (fun kv => kv.2.ticketPrice)).sum

/-- Total amount scheduled in the maturing-votes map. -/
def maturingTotal (m : List (Int × List utxoInfo)) : Int :=
  (m.map (fun kv => utxosTotal kv.2)).sum

/-- Sum of unlocked funds, funds locked in outstanding tickets, and funds
scheduled in maturing payouts — the quantity of the fund-conservation
invariant. -/
def totalBalance (w : VotingWallet) : Int :=
  utxosTotal w.utxos + ticketsTotal w.tickets + maturingTotal w.maturingVotes

/-- Default TxOut used to state facts about `List.getD` on output lists that
are always long enough. -/
def defaultTxOut : TxOut := { value := 0, version := 0, pkScript := [] }

/-! ### Association-list (Go map) lemmas -/

theorem alLookup_insert_self {α β : Type} [DecidableEq α]
    (m : List (α × β)) (k : α) (v : β) :
    alLookup (alInsert m k v) k = some v := by
  induction m with
  | nil => simp [alInsert, alLookup]
  | cons kv t ih =>
    obtain ⟨k', v'⟩ := kv
    by_cases h : k' = k
    · subst h
      simp [alInsert, alLookup]
    · simp [alInsert, alLookup, h, ih]

theorem alLookup_insert_ne {α β : Type} [DecidableEq α]
    (m : List (α × β)) (k k' : α) (v : β) (h : k' ≠ k) :
    alLookup (alInsert m k v) k' = alLookup m k' := by
  have h' : k ≠ k' := Ne.symm h
  induction m with
  | nil => simp [alInsert, alLookup, h']
  | cons kv t ih =>
    obtain ⟨k0, v0⟩ := kv
    by_cases h0 : k0 = k
    · subst h0
      simp [alInsert, alLookup, h']
    · simp only [alInsert, if_neg h0]
      by_cases h1 : k0 = k'
      · simp [alLookup, h1]
      · simp [alLookup, h1, ih]

theorem alLookup_insert_eq_some {α β : Type} [DecidableEq α]
    (m : List (α × β)) (k k' : α) (v u : β)
    (h : alLookup (alInsert m k v) k' = some u) :
    (k' = k ∧ u = v) ∨ alLookup m k' = some u := by
  by_cases hk : k' = k
  · subst hk
    rw [alLookup_insert_self] at h
    exact Or.inl ⟨rfl, (Option.some_injective _ h).symm⟩
  · rw [alLookup_insert_ne m k k' v hk] at h
    exact Or.inr h

theorem alInsert_of_lookup_none {α β : Type} [DecidableEq α]
    (m : List (α × β)) (k : α) (v : β) (h : alLookup m k = none) :
    alInsert m k v = m ++ [(k, v)] := by
  induction m with
  | nil => simp [alInsert]
  | cons kv t ih =>
    obtain ⟨k0, v0⟩ := kv
    by_cases h0 : k0 = k
    · simp [alLookup, h0] at h
    · simp only [alLookup, if_neg h0] at h
      simp [alInsert, h0, ih h]

theorem alErase_of_lookup_none {α β : Type} [DecidableEq α]
    (m : List (α × β)) (k : α) (h : alLookup m k = none) :
    alErase m k = m := by
  induction m with
  | nil => simp [alErase]
  | cons kv t ih =>
    obtain ⟨k0, v0⟩ := kv
    by_cases h0 : k0 = k
    · simp [alLookup, h0] at h
    · simp only [alLookup, if_neg h0] at h
      simp [alErase, h0, ih h]

theorem alLookup_erase_ne {α β : Type} [DecidableEq α]
    (m : List (α × β)) (k k' : α) (h : k' ≠ k) :
    alLookup (alErase m k) k' = alLookup m k' := by
  have h' : k ≠ k' := Ne.symm h
  induction m with
  | nil => simp [alErase]
  | cons kv t ih =>
    obtain ⟨k0, v0⟩ := kv
    by_cases h0 : k0 = k
    · subst h0
      simp [alErase, alLookup, h']
    · by_cases h1 : k0 = k'
      · simp [alErase, alLookup, h0, h1, h]
      · simp [alErase, alLookup, h0, h1, ih]

theorem alLookup_eq_none_of_not_mem_keys {α β : Type} [DecidableEq α]
    (m : List (α × β)) (k : α) (h : k ∉ m.map Prod.fst) :
    alLookup m k = none := by
  induction m with
  | nil => rfl
  | cons kv t ih =>
    obtain ⟨k0, v0⟩ := kv
    simp only [List.map_cons, List.mem_cons] at h
    push_neg at h
    have h0 : ¬ k0 = k := fun hh => h.1 hh.symm
    simp [alLookup, h0, ih h.2]

theorem alLookup_erase_self {α β : Type} [DecidableEq α]
    (m : List (α × β)) (k : α) (hnd : (m.map Prod.fst).Nodup) :
    alLookup (alErase m k) k = none := by
  induction m with
  | nil => rfl
  | cons kv t ih =>
    obtain ⟨k0, v0⟩ := kv
    simp only [List.map_cons, List.nodup_cons] at hnd
    by_cases h0 : k0 = k
    · subst h0
      simp only [alErase, if_pos rfl]
      exact alLookup_eq_none_of_not_mem_keys t k0 hnd.1
    · simp [alErase, alLookup, h0, ih hnd.2]

theorem alLookup_append {α β : Type} [DecidableEq α]
    (m m' : List (α × β)) (k : α) :
    alLookup (m ++ m') k =
      match alLookup m k with
      | some v => some v
      | none => alLookup m' k := by
  induction m with
  | nil => simp [alLookup]
  | cons kv t ih =>
    obtain ⟨k0, v0⟩ := kv
    by_cases h0 : k0 = k
    · simp [alLookup, h0]
    · simp [alLookup, h0, ih]

/-! ### Sum lemmas -/

theorem utxosTotal_append (a b : List utxoInfo) :
    utxosTotal (a ++ b) = utxosTotal a + utxosTotal b := by
  simp [utxosTotal]

theorem ticketsTotal_append (a b : List (Hash × ticketInfo)) :
    ticketsTotal (a ++ b) = ticketsTotal a + ticketsTotal b := by
  simp [ticketsTotal]

theorem maturingTotal_append (a b : List (Int × List utxoInfo)) :
    maturingTotal (a ++ b) = maturingTotal a + maturingTotal b := by
  simp [maturingTotal]

theorem utxosTotal_take_drop (us : List utxoInfo) (n : Nat) :
    utxosTotal (us.take n) + utxosTotal (us.drop n) = utxosTotal us := by
  conv_rhs => rw [← List.take_append_drop n us]
  rw [utxosTotal_append]

theorem maturingTotal_erase (m : List (Int × List utxoInfo)) (k : Int)
    (hnd : (m.map Prod.fst).Nodup) :
    maturingTotal (alErase m k) =
      maturingTotal m - utxosTotal ((alLookup m k).getD []) := by
  induction m with
  | nil => simp [alErase, alLookup, maturingTotal, utxosTotal]
  | cons kv t ih =>
    obtain ⟨k0, v0⟩ := kv
    simp only [List.map_cons, List.nodup_cons] at hnd
    by_cases h0 : k0 = k
    · subst h0
      have hnone : alLookup t k0 = none :=
        alLookup_eq_none_of_not_mem_keys t k0 hnd.1
      simp [alErase, alLookup, maturingTotal, hnone,
        alErase_of_lookup_none t k0 hnone]
    · simp only [alErase, if_neg h0, alLookup, if_neg h0, maturingTotal,
        List.map_cons, List.sum_cons]
      have ht := ih hnd.2
      simp only [maturingTotal] at ht
      rw [ht]
      ring

/-! ### Purchase-handler lemmas -/

/-- Ticket-map entries recorded by the receive loop for submission hashes
`hs i, hs (i+1), ...`, all at the same price. -/
def mkTicketEntries (hs : Nat → Hash) (price : Int) :
    Nat → Nat → List (Hash × ticketInfo)
  | _, 0 => []
  | i, n + 1 => (hs i, { ticketPrice := price }) :: mkTicketEntries hs price (i + 1) n

theorem mkTicketEntries_length (hs : Nat → Hash) (price : Int) (i n : Nat) :
    (mkTicketEntries hs price i n).length = n := by
  induction n generalizing i with
  | zero => rfl
  | succ n ih => simp [mkTicketEntries, ih]

theorem ticketsTotal_mkTicketEntries (hs : Nat → Hash) (price : Int) (i n : Nat) :
    ticketsTotal (mkTicketEntries hs price i n) = (n : Int) * price := by
  induction n generalizing i with
  | zero => simp [mkTicketEntries, ticketsTotal]
  | succ n ih =>
    simp only [mkTicketEntries, ticketsTotal, List.map_cons, List.sum_cons]
    have := ih (i + 1)
    simp only [ticketsTotal] at this
    rw [this]
    push_cast
    ring

/-- When every submission in the window succeeds with pairwise distinct
hashes that are fresh for the accumulated map, the receive loop of the
purchase handler appends one entry per ticket at the computed price and
reports no failure. -/
theorem receiveTickets_all_ok (send : Nat → Option Hash) (price : Int)
    (hs : Nat → Hash) (n : Nat) :
    ∀ (i : Nat) (tks : List (Hash × ticketInfo)),
    (∀ j, j < n → send (i + j) = some (hs (i + j))) →
    (∀ j, j < n → alLookup tks (hs (i + j)) = none) →
    (∀ j j', j < n → j' < n → hs (i + j) = hs (i + j') → j = j') →
    receiveTickets send price tks i n = (tks ++ mkTicketEntries hs price i n, none) := by
  induction n with
  | zero => intro i tks _ _ _; simp [receiveTickets, mkTicketEntries]
  | succ n ih =>
    intro i tks hsend hfresh hinj
    have hsend0 : send i = some (hs i) := by
      have := hsend 0 (Nat.succ_pos n); simpa using this
    have hfresh0 : alLookup tks (hs i) = none := by
      have := hfresh 0 (Nat.succ_pos n); simpa using this
    simp only [receiveTickets, hsend0]
    rw [alInsert_of_lookup_none tks (hs i) _ hfresh0]
    have hrec := ih (i + 1) (tks ++ [(hs i, { ticketPrice := price })])
      (fun j hj => by
        have := hsend (j + 1) (Nat.succ_lt_succ hj)
        simpa [Nat.add_assoc, Nat.add_comm 1 j] using this)
      (fun j hj => by
        rw [alLookup_append]
        have h1 : alLookup tks (hs (i + 1 + j)) = none := by
          have := hfresh (j + 1) (Nat.succ_lt_succ hj)
          simpa [Nat.add_assoc, Nat.add_comm 1 j] using this
        have h2 : hs i ≠ hs (i + 1 + j) := by
          intro he
          have := hinj 0 (j + 1) (Nat.succ_pos n) (Nat.succ_lt_succ hj)
            (by simpa [Nat.add_assoc, Nat.add_comm 1 j] using he)
          omega
        simp [h1, alLookup, h2])
      (fun j j' hj hj' he => by
        have := hinj (j + 1) (j' + 1) (Nat.succ_lt_succ hj) (Nat.succ_lt_succ hj')
          (by simpa [Nat.add_assoc, Nat.add_comm 1 j, Nat.add_comm 1 j'] using he)
        omega)
    rw [hrec]
    simp [mkTicketEntries]

/-- When submissions succeed strictly before index `i + j0` and fail there,
the receive loop stops at that index having recorded exactly the earlier
tickets. -/
theorem receiveTickets_fail_at (send : Nat → Option Hash) (price : Int)
    (hs : Nat → Hash) (j0 : Nat) :
    ∀ (i n : Nat) (tks : List (Hash × ticketInfo)),
    j0 < n →
    (∀ j, j < j0 → send (i + j) = some (hs (i + j))) →
    send (i + j0) = none →
    (∀ j, j < j0 → alLookup tks (hs (i + j)) = none) →
    (∀ j j', j < j0 → j' < j0 → hs (i + j) = hs (i + j') → j = j') →
    receiveTickets send price tks i n =
      (tks ++ mkTicketEntries hs price i j0, some (i + j0)) := by
  induction j0 with
  | zero =>
    intro i n tks hlt hsend hfail _ _
    obtain ⟨n', rfl⟩ : ∃ n', n = n' + 1 := ⟨n - 1, by omega⟩
    have hf : send i = none := by simpa using hfail
    simp [receiveTickets, hf, mkTicketEntries]
  | succ j0 ih =>
    intro i n tks hlt hsend hfail hfresh hinj
    obtain ⟨n', rfl⟩ : ∃ n', n = n' + 1 := ⟨n - 1, by omega⟩
    have hsend0 : send i = some (hs i) := by
      have := hsend 0 (Nat.succ_pos j0); simpa using this
    have hfresh0 : alLookup tks (hs i) = none := by
      have := hfresh 0 (Nat.succ_pos j0); simpa using this
    simp only [receiveTickets, hsend0]
    rw [alInsert_of_lookup_none tks (hs i) _ hfresh0]
    have hrec := ih (i + 1) n' (tks ++ [(hs i, { ticketPrice := price })])
      (by omega)
      (fun j hj => by
        have := hsend (j + 1) (Nat.succ_lt_succ hj)
        simpa [Nat.add_assoc, Nat.add_comm 1 j] using this)
      (by
        have : i + 1 + j0 = i + (j0 + 1) := by omega
        rw [this]; exact hfail)
      (fun j hj => by
        rw [alLookup_append]
        have h1 : alLookup tks (hs (i + 1 + j)) = none := by
          have := hfresh (j + 1) (Nat.succ_lt_succ hj)
          simpa [Nat.add_assoc, Nat.add_comm 1 j] using this
        have h2 : hs i ≠ hs (i + 1 + j) := by
          intro he
          have := hinj 0 (j + 1) (Nat.succ_pos j0) (Nat.succ_lt_succ hj)
            (by simpa [Nat.add_assoc, Nat.add_comm 1 j] using he)
          omega
        simp [h1, alLookup, h2])
      (fun j j' hj hj' he => by
        have := hinj (j + 1) (j' + 1) (Nat.succ_lt_succ hj) (Nat.succ_lt_succ hj')
          (by simpa [Nat.add_assoc, Nat.add_comm 1 j, Nat.add_comm 1 j'] using he)
        omega)
    rw [hrec]
    have : i + 1 + j0 = i + (j0 + 1) := by omega
    simp [mkTicketEntries, this]

/-- Any entry of the map produced by the receive loop was already present or
has a key returned by a submission. -/
theorem receiveTickets_lookup_orig (send : Nat → Option Hash) (price : Int) :
    ∀ (n i : Nat) (tks : List (Hash × ticketInfo)) (h : Hash) (v : ticketInfo),
    alLookup (receiveTickets send price tks i n).1 h = some v →
    alLookup tks h = some v ∨ ∃ j, send j = some h := by
  intro n
  induction n with
  | zero => intro i tks h v hl; exact Or.inl hl
  | succ n ih =>
    intro i tks h v hl
    simp only [receiveTickets] at hl
    cases hsend : send i with
    | none => rw [hsend] at hl; exact Or.inl hl
    | some h0 =>
      rw [hsend] at hl
      rcases ih (i + 1) _ h v hl with hin | hnew
      · rcases alLookup_insert_eq_some tks h0 h _ v hin with ⟨rfl, _⟩ | hold
        · exact Or.inr ⟨i, hsend⟩
        · exact Or.inl hold
      · exact Or.inr hnew

/-- When the signer succeeds on every request, the build-and-sign loop of the
purchase handler succeeds. -/
theorem signTickets_ok (w : VotingWallet) (env : BlockEnv)
    (price commit : Int)
    (hsig : ∀ i s, (env.signatureScript i s).isSome) :
    ∀ (us : List utxoInfo) (i : Nat),
    ∃ ts, signTickets w env price commit i us = .ok ts := by
  intro us
  induction us with
  | nil => intro i; exact ⟨[], rfl⟩
  | cons u us ih =>
    intro i
    obtain ⟨ts, hts⟩ := ih (i + 1)
    have := hsig i (if u.outpoint.tree = txTreeStake then w.voteRetScript else w.p2pkh)
    obtain ⟨sig, hsg⟩ := Option.isSome_iff_exists.mp this
    exact ⟨setSigScript (buildTicket w price commit u) 0 sig :: ts,
      by simp only [signTickets, hsg, hts]⟩

/-- Success-path characterization of the purchase handler: at or above the
purchase start height, with enough utxos, a succeeding signer, and per-ticket
submission hashes that are fresh and pairwise distinct, the handler returns
`ok` having (a) removed exactly the TicketsPerBlock most recently added
utxos, (b) appended one ticket entry per submission at price
SBits + SBits/6, and (c) drained the maturing votes registered at this
height into the unlocked pool. -/
theorem handleBlock_ok_eq (net : Params) (w : VotingWallet) (env : BlockEnv)
    (hdr : BlockHeader) (hs : Nat → Hash)
    (henv : env.decodedHeader = some hdr)
    (hh : ¬ ((hdr.height : Int) < ticketPurchaseStartHeight net))
    (hlen : ¬ (w.utxos.length < net.ticketsPerBlock))
    (hsig : ∀ i s, (env.signatureScript i s).isSome)
    (hsend : ∀ j, j < net.ticketsPerBlock → env.sendResult j = some (hs j))
    (hfresh : ∀ j, j < net.ticketsPerBlock → alLookup w.tickets (hs j) = none)
    (hinj : ∀ j j', j < net.ticketsPerBlock → j' < net.ticketsPerBlock →
      hs j = hs j' → j = j') :
    handleBlockConnectedNtfn net w env =
      { wallet :=
          { w with
            utxos := w.utxos.take (w.utxos.length - net.ticketsPerBlock) ++
              (alLookup w.maturingVotes (hdr.height : Int)).getD [],
            tickets := w.tickets ++ mkTicketEntries hs
              (hdr.sBits + hdr.sBits.tdiv 6) 0 net.ticketsPerBlock,
            maturingVotes := alErase w.maturingVotes (hdr.height : Int) },
        outcome := .ok } := by
  obtain ⟨ts, hts⟩ := signTickets_ok w env (hdr.sBits + hdr.sBits.tdiv 6)
    (net.minimumStakeDiff * commitAmountMultiplier) hsig
    (w.utxos.drop (w.utxos.length - net.ticketsPerBlock)) 0
  have hrt := receiveTickets_all_ok env.sendResult (hdr.sBits + hdr.sBits.tdiv 6)
    hs net.ticketsPerBlock 0 w.tickets
    (fun j hj => by simpa using hsend j hj)
    (fun j hj => by simpa using hfresh j hj)
    (fun j j' hj hj' he => hinj j j' hj hj' (by simpa using he))
  simp only [handleBlockConnectedNtfn, henv, if_neg hh, if_neg hlen, hts, hrt]
  cases hlook : alLookup w.maturingVotes (hdr.height : Int) with
  | none =>
    simp [hlook, alErase_of_lookup_none w.maturingVotes _ hlook]
  | some l =>
    simp [hlook]

/-- Failure-path characterization of the purchase handler: when submission
`j0` is the first to fail, the handler reports `sendErr j0` with the consumed
utxos still removed, only the tickets before `j0` recorded, and the
maturing-votes schedule untouched. -/
theorem handleBlock_sendErr_eq (net : Params) (w : VotingWallet) (env : BlockEnv)
    (hdr : BlockHeader) (hs : Nat → Hash) (j0 : Nat)
    (henv : env.decodedHeader = some hdr)
    (hh : ¬ ((hdr.height : Int) < ticketPurchaseStartHeight net))
    (hlen : ¬ (w.utxos.length < net.ticketsPerBlock))
    (hsig : ∀ i s, (env.signatureScript i s).isSome)
    (hj0 : j0 < net.ticketsPerBlock)
    (hsend : ∀ j, j < j0 → env.sendResult j = some (hs j))
    (hfail : env.sendResult j0 = none)
    (hfresh : ∀ j, j < j0 → alLookup w.tickets (hs j) = none)
    (hinj : ∀ j j', j < j0 → j' < j0 → hs j = hs j' → j = j') :
    handleBlockConnectedNtfn net w env =
      { wallet :=
          { w with
            utxos := w.utxos.take (w.utxos.length - net.ticketsPerBlock),
            tickets := w.tickets ++ mkTicketEntries hs
              (hdr.sBits + hdr.sBits.tdiv 6) 0 j0 },
        outcome := .sendErr j0 } := by
  obtain ⟨ts, hts⟩ := signTickets_ok w env (hdr.sBits + hdr.sBits.tdiv 6)
    (net.minimumStakeDiff * commitAmountMultiplier) hsig
    (w.utxos.drop (w.utxos.length - net.ticketsPerBlock)) 0
  have hrt := receiveTickets_fail_at env.sendResult (hdr.sBits + hdr.sBits.tdiv 6)
    hs j0 0 net.ticketsPerBlock w.tickets hj0
    (fun j hj => by simpa using hsend j hj)
    (by simpa using hfail)
    (fun j hj => by simpa using hfresh j hj)
    (fun j j' hj hj' he => hinj j j' hj hj' (by simpa using he))
  simp only [handleBlockConnectedNtfn, henv, if_neg hh, if_neg hlen, hts, hrt,
    Nat.zero_add]

/-- With a decode failure, a height below the purchase start, too few utxos,
or a signing failure, the purchase handler returns with the reported outcome
and no state change beyond the already-consumed utxos; in particular, any
non-`ok` outcome leaves the maturing-votes schedule untouched, and `headerErr`
/ `belowPurchaseHeight` / `insufficientUtxos` leave the whole wallet
untouched.  Stated as an inversion: whenever the outcome is not `ok`, the
maturing schedule and the ticket-relevant invariants follow. -/
theorem handleBlock_not_ok_maturing (net : Params) (w : VotingWallet)
    (env : BlockEnv)
    (h : (handleBlockConnectedNtfn net w env).outcome ≠ .ok) :
    (handleBlockConnectedNtfn net w env).wallet.maturingVotes =
      w.maturingVotes := by
  cases hd : env.decodedHeader with
  | none => simp [handleBlockConnectedNtfn, hd]
  | some hdr =>
    simp only [handleBlockConnectedNtfn, hd] at h ⊢
    by_cases h1 : ((hdr.height : Int) < ticketPurchaseStartHeight net)
    · simp [h1]
    · simp only [if_neg h1] at h ⊢
      by_cases h2 : w.utxos.length < net.ticketsPerBlock
      · simp [h2]
      · simp only [if_neg h2] at h ⊢
        cases hsign : signTickets w env
            (hdr.sBits + hdr.sBits.tdiv 6)
            (net.minimumStakeDiff * commitAmountMultiplier) 0
            (w.utxos.drop (w.utxos.length - net.ticketsPerBlock)) with
        | error i => simp [hsign]
        | ok ts =>
          simp only [hsign] at h ⊢
          rcases hrt : receiveTickets env.sendResult
              (hdr.sBits + hdr.sBits.tdiv 6) w.tickets 0 net.ticketsPerBlock
            with ⟨tks, oi⟩
          cases oi with
          | some i => simp [hrt]
          | none =>
            simp only [hrt] at h ⊢
            cases hlook : alLookup w.maturingVotes (hdr.height : Int) with
            | none => simp [hlook] at h
            | some l => simp [hlook] at h

/-- Inversion of a successful purchase-handler run, with no assumption on the
environment: an `ok` outcome implies the header decoded at a height at or
above the purchase start and the final wallet has exactly the maturing entry
at that height drained into the unlocked pool (other entries untouched). -/
theorem handleBlock_ok_inv (net : Params) (w : VotingWallet) (env : BlockEnv)
    (h : (handleBlockConnectedNtfn net w env).outcome = .ok) :
    ∃ hdr, env.decodedHeader = some hdr ∧
      ¬ ((hdr.height : Int) < ticketPurchaseStartHeight net) ∧
      (handleBlockConnectedNtfn net w env).wallet.maturingVotes =
        alErase w.maturingVotes (hdr.height : Int) ∧
      (handleBlockConnectedNtfn net w env).wallet.utxos =
        w.utxos.take (w.utxos.length - net.ticketsPerBlock) ++
          (alLookup w.maturingVotes (hdr.height : Int)).getD [] := by
  cases hd : env.decodedHeader with
  | none => simp [handleBlockConnectedNtfn, hd] at h
  | some hdr =>
    refine ⟨hdr, rfl, ?_⟩
    simp only [handleBlockConnectedNtfn, hd] at h ⊢
    by_cases h1 : ((hdr.height : Int) < ticketPurchaseStartHeight net)
    · simp [h1] at h
    · simp only [if_neg h1] at h ⊢
      refine ⟨h1, ?_⟩
      by_cases h2 : w.utxos.length < net.ticketsPerBlock
      · simp [h2] at h
      · simp only [if_neg h2] at h ⊢
        cases hsign : signTickets w env
            (hdr.sBits + hdr.sBits.tdiv 6)
            (net.minimumStakeDiff * commitAmountMultiplier) 0
            (w.utxos.drop (w.utxos.length - net.ticketsPerBlock)) with
        | error i => simp [hsign] at h
        | ok ts =>
          simp only [hsign] at h ⊢
          rcases hrt : receiveTickets env.sendResult
              (hdr.sBits + hdr.sBits.tdiv 6) w.tickets 0 net.ticketsPerBlock
            with ⟨tks, oi⟩
          cases oi with
          | some i => simp [hrt] at h
          | none =>
            simp only [hrt] at h ⊢
            cases hlook : alLookup w.maturingVotes (hdr.height : Int) with
            | none =>
              simp [hlook, alErase_of_lookup_none w.maturingVotes _ hlook]
            | some l => simp [hlook]

/-! ### Vote-handler lemmas -/

theorem setSigScript_txOut (t : MsgTx) (i : Nat) (s : Script) :
    (setSigScript t i s).txOut = t.txOut := by
  unfold setSigScript
  cases t.txIn.get? i <;> rfl



/-- Inversion of the loop body for an owned winning ticket that yields a
built vote: the wallet owns the ticket, the vote count was strictly below the
limit (the array access was in bounds), and the built vote carries the payout
ticketPrice + subsidy as its output at index 2. -/
theorem processWinner_built (net : Params) (w : VotingWallet) (env : VoteEnv)
    (blockRef : Script) (nb : Nat) (wt : Hash) (v : MsgTx)
    (h : processWinner net w env blockRef nb wt = .built v) :
    (nb : Int) < w.limitNbVotes ∧
    ∃ info, alLookup w.tickets wt = some info ∧
      (v.txOut.getD 2 defaultTxOut).value = info.ticketPrice + env.subsidy := by
  cases hlk : alLookup w.tickets wt with
  | none => simp [processWinner, hlk] at h
  | some info =>
    simp only [processWinner, hlk] at h
    by_cases hb : (nb : Int) ≥ w.limitNbVotes
    · simp [if_pos hb] at h
    · simp only [if_neg hb] at h
      refine ⟨by omega, info, rfl, ?_⟩
      by_cases ht : w.tspendVotes.length > 0
      · simp only [if_pos ht] at h
        cases hts : env.tspendScript nb with
        | none => simp [hts] at h
        | some s =>
          simp only [hts] at h
          cases hsg : env.signatureScript nb w.p2sstx with
          | none => simp [hsg] at h
          | some sig =>
            simp only [hsg] at h
            by_cases hck : env.checkSSGen nb
            · simp only [if_pos hck] at h
              cases h
              simp [setSigScript_txOut, buildVoteBase, defaultTxOut]
            · simp [if_neg hck] at h
      · simp only [if_neg ht] at h
        cases hsg : env.signatureScript nb w.p2sstx with
        | none => simp [hsg] at h
        | some sig =>
          simp only [hsg] at h
          by_cases hck : env.checkSSGen nb
          · simp only [if_pos hck] at h
            cases h
            simp [setSigScript_txOut, buildVoteBase, defaultTxOut]
          · simp [if_neg hck] at h

/-- Classification of loop-body failures: an index panic happens exactly when
the vote count has reached the limit; every other failure is a script-builder,
signing or CheckSSGen error. -/
theorem processWinner_fail (net : Params) (w : VotingWallet) (env : VoteEnv)
    (blockRef : Script) (nb : Nat) (wt : Hash) (o : VoteOutcome)
    (h : processWinner net w env blockRef nb wt = .fail o) :
    ((nb : Int) ≥ w.limitNbVotes ∧ o = .indexPanic nb) ∨
    o = .tspendScriptErr ∨ o = .signErr ∨ o = .checkSSGenErr := by
  cases hlk : alLookup w.tickets wt with
  | none => simp [processWinner, hlk] at h
  | some info =>
    simp only [processWinner, hlk] at h
    by_cases hb : (nb : Int) ≥ w.limitNbVotes
    · simp only [if_pos hb] at h
      cases h
      exact Or.inl ⟨hb, rfl⟩
    · simp only [if_neg hb] at h
      by_cases ht : w.tspendVotes.length > 0
      · simp only [if_pos ht] at h
        cases hts : env.tspendScript nb with
        | none => simp only [hts] at h; cases h; simp
        | some s =>
          simp only [hts] at h
          cases hsg : env.signatureScript nb w.p2sstx with
          | none => simp only [hsg] at h; cases h; simp
          | some sig =>
            simp only [hsg] at h
            by_cases hck : env.checkSSGen nb
            · simp [if_pos hck] at h
            · simp only [if_neg hck] at h; cases h; simp
      · simp only [if_neg ht] at h
        cases hsg : env.signatureScript nb w.p2sstx with
        | none => simp only [hsg] at h; cases h; simp
        | some sig =>
          simp only [hsg] at h
          by_cases hck : env.checkSSGen nb
          · simp [if_pos hck] at h
          · simp only [if_neg hck] at h; cases h; simp

/-- The loop body skips a ticket exactly when the wallet does not own it. -/
theorem processWinner_skip_iff (net : Params) (w : VotingWallet) (env : VoteEnv)
    (blockRef : Script) (nb : Nat) (wt : Hash) :
    processWinner net w env blockRef nb wt = .skip ↔
      alLookup w.tickets wt = none := by
  constructor
  · intro h
    cases hlk : alLookup w.tickets wt with
    | none => rfl
    | some info =>
      simp only [processWinner, hlk] at h
      by_cases hb : (nb : Int) ≥ w.limitNbVotes
      · simp [if_pos hb] at h
      · simp only [if_neg hb] at h
        by_cases ht : w.tspendVotes.length > 0
        · simp only [if_pos ht] at h
          cases hts : env.tspendScript nb with
          | none => simp [hts] at h
          | some s =>
            simp only [hts] at h
            cases hsg : env.signatureScript nb w.p2sstx with
            | none => simp [hsg] at h
            | some sig =>
              simp only [hsg] at h
              by_cases hck : env.checkSSGen nb
              · simp [if_pos hck] at h
              · simp [if_neg hck] at h
        · simp only [if_neg ht] at h
          cases hsg : env.signatureScript nb w.p2sstx with
          | none => simp [hsg] at h
          | some sig =>
            simp only [hsg] at h
            by_cases hck : env.checkSSGen nb
            · simp [if_pos hck] at h
            · simp [if_neg hck] at h
  · intro h
    simp only [processWinner, h]

/-- Once below the limit, the winning-ticket loop keeps every vote-array
access in bounds: it can never report an index panic. -/
theorem buildVotes_no_indexPanic (net : Params) (w : VotingWallet)
    (env : VoteEnv) (blockRef : Script) :
    ∀ (wts : List Hash) (built : List MsgTx),
    (built.length : Int) < w.limitNbVotes →
    ∀ i, buildVotes net w env blockRef wts built ≠ .error (.indexPanic i) := by
  intro wts
  induction wts with
  | nil => intro built _ i h; simp [buildVotes] at h
  | cons wt rest ih =>
    intro built hlt i h
    cases hpw : processWinner net w env blockRef built.length wt with
    | skip =>
      simp only [buildVotes, hpw] at h
      exact ih built hlt i h
    | fail o =>
      simp only [buildVotes, hpw] at h
      cases h
      rcases processWinner_fail net w env blockRef built.length wt _ hpw with
        ⟨hge, _⟩ | ho | ho | ho
      · omega
      all_goals simp at ho
    | built v =>
      simp only [buildVotes, hpw] at h
      by_cases hbr : (((built ++ [v]).length : Nat) : Int) ≥ w.limitNbVotes
      · rw [if_pos hbr] at h
        simp at h
      · rw [if_neg hbr] at h
        exact ih (built ++ [v]) (by omega) i h

/-- With a vote limit of zero, the first owned ticket among the winners makes
the loop access index 0 of the zero-length vote array: it reports the index
panic at 0. -/
theorem buildVotes_panic_of_limit_zero (net : Params) (w : VotingWallet)
    (env : VoteEnv) (blockRef : Script) (hlim : w.limitNbVotes = 0) :
    ∀ wts : List Hash,
    (∃ wt ∈ wts, (alLookup w.tickets wt).isSome) →
    buildVotes net w env blockRef wts [] = .error (.indexPanic 0) := by
  intro wts
  induction wts with
  | nil => rintro ⟨wt, hmem, _⟩; simp at hmem
  | cons wt rest ih =>
    rintro ⟨wt0, hmem, hsome⟩
    cases hlk : alLookup w.tickets wt with
    | none =>
      have hskip : processWinner net w env blockRef 0 wt = .skip :=
        (processWinner_skip_iff net w env blockRef 0 wt).2 hlk
      simp only [buildVotes, List.length_nil, hskip]
      apply ih
      rcases List.mem_cons.mp hmem with rfl | hmem'
      · rw [hlk] at hsome; simp at hsome
      · exact ⟨wt0, hmem', hsome⟩
    | some info =>
      have hpw : processWinner net w env blockRef 0 wt = .fail (.indexPanic 0) := by
        simp [processWinner, hlk, hlim]
      simp only [buildVotes, List.length_nil, hpw]

/-- The winning-ticket loop never produces more votes than the limit. -/
theorem buildVotes_length_le (net : Params) (w : VotingWallet) (env : VoteEnv)
    (blockRef : Script) :
    ∀ (wts : List Hash) (built votes : List MsgTx),
    (built.length : Int) ≤ w.limitNbVotes →
    buildVotes net w env blockRef wts built = .ok votes →
    (votes.length : Int) ≤ w.limitNbVotes := by
  intro wts
  induction wts with
  | nil =>
    intro built votes hle h
    simp only [buildVotes] at h
    cases h
    exact hle
  | cons wt rest ih =>
    intro built votes hle h
    cases hpw : processWinner net w env blockRef built.length wt with
    | skip =>
      simp only [buildVotes, hpw] at h
      exact ih built votes hle h
    | fail o => simp [buildVotes, hpw] at h
    | built v =>
      have hlt := (processWinner_built net w env blockRef built.length wt v hpw).1
      simp only [buildVotes, hpw] at h
      by_cases hbr : (((built ++ [v]).length : Nat) : Int) ≥ w.limitNbVotes
      · rw [if_pos hbr] at h
        cases h
        simp only [List.length_append, List.length_cons, List.length_nil]
        push_cast
        push_cast at hlt
        omega
      · rw [if_neg hbr] at h
        refine ih (built ++ [v]) votes ?_ h
        omega

/-- A winner the wallet does not own is skipped: the loop behaves exactly as
if that winner had not been drawn, wherever it occurs in the draw. -/
theorem buildVotes_skip (net : Params) (w : VotingWallet) (env : VoteEnv)
    (blockRef : Script) (wt : Hash)
    (hnone : alLookup w.tickets wt = none) (post : List Hash) :
    ∀ (pre : List Hash) (built : List MsgTx),
    buildVotes net w env blockRef (pre ++ wt :: post) built =
      buildVotes net w env blockRef (pre ++ post) built := by
  intro pre
  induction pre with
  | nil =>
    intro built
    have hskip := (processWinner_skip_iff net w env blockRef built.length wt).2 hnone
    simp only [List.nil_append, buildVotes, hskip]
  | cons a pre ih =>
    intro built
    simp only [List.cons_append, buildVotes]
    cases hpw : processWinner net w env blockRef built.length a with
    | skip => exact ih built
    | fail o => rfl
    | built v =>
      dsimp only
      by_cases hbr : (((built ++ [v]).length : Nat) : Int) ≥ w.limitNbVotes
      · simp only [if_pos hbr]
      · simp only [if_neg hbr]
        exact ih (built ++ [v])

/-- Every vote the loop returns corresponds to an owned winning ticket; its
output at index 2 carries that ticket's price plus the subsidy. -/
theorem buildVotes_ok_content (net : Params) (w : VotingWallet) (env : VoteEnv)
    (blockRef : Script) :
    ∀ (wts : List Hash) (built votes : List MsgTx),
    buildVotes net w env blockRef wts built = .ok votes →
    ∀ v ∈ votes, v ∈ built ∨
      ∃ wt ∈ wts, ∃ info, alLookup w.tickets wt = some info ∧
        (v.txOut.getD 2 defaultTxOut).value = info.ticketPrice + env.subsidy := by
  intro wts
  induction wts with
  | nil =>
    intro built votes h v hv
    simp only [buildVotes] at h
    cases h
    exact Or.inl hv
  | cons wt rest ih =>
    intro built votes h v hv
    cases hpw : processWinner net w env blockRef built.length wt with
    | skip =>
      simp only [buildVotes, hpw] at h
      rcases ih built votes h v hv with hb | ⟨wt', hm, r⟩
      · exact Or.inl hb
      · exact Or.inr ⟨wt', List.mem_cons_of_mem _ hm, r⟩
    | fail o => simp [buildVotes, hpw] at h
    | built v0 =>
      obtain ⟨_, info, hlk, hval⟩ :=
        processWinner_built net w env blockRef built.length wt v0 hpw
      simp only [buildVotes, hpw] at h
      by_cases hbr : (((built ++ [v0]).length : Nat) : Int) ≥ w.limitNbVotes
      · rw [if_pos hbr] at h
        cases h
        rcases List.mem_append.mp hv with hb | hv0
        · exact Or.inl hb
        · simp only [List.mem_singleton] at hv0
          subst hv0
          exact Or.inr ⟨wt, List.mem_cons_self wt rest, info, hlk, hval⟩
      · rw [if_neg hbr] at h
        rcases ih (built ++ [v0]) votes h v hv with hb | ⟨wt', hm, r⟩
        · rcases List.mem_append.mp hb with h1 | h2
          · exact Or.inl h1
          · simp only [List.mem_singleton] at h2
            subst h2
            exact Or.inr ⟨wt, List.mem_cons_self wt rest, info, hlk, hval⟩
        · exact Or.inr ⟨wt', List.mem_cons_of_mem _ hm, r⟩

/-- Errors reported by the winning-ticket loop are never the `ok` outcome. -/
theorem buildVotes_error_ne_ok (net : Params) (w : VotingWallet) (env : VoteEnv)
    (blockRef : Script) :
    ∀ (wts : List Hash) (built : List MsgTx) (o : VoteOutcome),
    buildVotes net w env blockRef wts built = .error o →
    ∀ n, o ≠ .ok n := by
  intro wts
  induction wts with
  | nil => intro built o h n; simp [buildVotes] at h
  | cons wt rest ih =>
    intro built o h n
    cases hpw : processWinner net w env blockRef built.length wt with
    | skip =>
      simp only [buildVotes, hpw] at h
      exact ih built o h n
    | fail o0 =>
      simp only [buildVotes, hpw] at h
      cases h
      rcases processWinner_fail net w env blockRef built.length wt _ hpw with
        ⟨_, rfl⟩ | rfl | rfl | rfl
      all_goals simp
    | built v =>
      simp only [buildVotes, hpw] at h
      by_cases hbr : (((built ++ [v]).length : Nat) : Int) ≥ w.limitNbVotes
      · rw [if_pos hbr] at h; simp at h
      · rw [if_neg hbr] at h
        exact ih (built ++ [v]) o h n

/-- A successful publish loop returns one recorded payout per vote, each
carrying the value of that vote's output at index 2. -/
theorem sendVotes_ok (send : Nat → Option Hash) :
    ∀ (vs : List MsgTx) (i : Nat) (us : List utxoInfo),
    sendVotes send i vs = .ok us →
    us.length = vs.length ∧
      ∀ u ∈ us, ∃ v ∈ vs, u.amount = (v.txOut.getD 2 defaultTxOut).value := by
  intro vs
  induction vs with
  | nil =>
    intro i us h
    simp only [sendVotes] at h
    cases h
    simp
  | cons v vs ih =>
    intro i us h
    cases hs : send i with
    | none => simp [sendVotes, hs] at h
    | some h0 =>
      cases hrec : sendVotes send (i + 1) vs with
      | error j => simp [sendVotes, hs, hrec] at h
      | ok rest =>
        simp only [sendVotes, hs, hrec] at h
        cases h
        obtain ⟨hlen, hmem⟩ := ih (i + 1) rest hrec
        refine ⟨by simp [hlen], ?_⟩
        intro u hu
        rcases List.mem_cons.mp hu with rfl | hu'
        · exact ⟨v, List.mem_cons_self v vs, rfl⟩
        · obtain ⟨v', hv', ha⟩ := hmem u hu'
          exact ⟨v', List.mem_cons_of_mem _ hv', ha⟩

/-- Wallet state after a fully successful vote-handler run: unchanged except
for the new maturing-votes entry at blockHeight + CoinbaseMaturity. -/
def voteSuccessWallet (net : Params) (w : VotingWallet)
    (ntfn : winningTicketsNtfn) (newUtxos : List utxoInfo) : VotingWallet :=
  { w with maturingVotes :=
      alInsert w.maturingVotes (ntfn.blockHeight + (net.coinbaseMaturity : Int)) newUtxos }

/-- Complete case analysis of the vote handler: either it returns early with
a non-`ok` outcome and the wallet untouched, or the build and publish loops
both succeed and the only state change is the new maturing-votes entry at
blockHeight + CoinbaseMaturity. -/
theorem voteHandler_cases (net : Params) (w : VotingWallet)
    (ntfn : winningTicketsNtfn) (env : VoteEnv) :
    (∃ o, handleWinningTicketsNtfn net w ntfn env =
        { wallet := w, outcome := o } ∧ ∀ n, o ≠ .ok n) ∨
    (∃ blockRef votes newUtxos,
        env.blockRefScript = some blockRef ∧
        buildVotes net w env blockRef ntfn.winningTickets [] = .ok votes ∧
        sendVotes env.sendResult 0 votes = .ok newUtxos ∧
        handleWinningTicketsNtfn net w ntfn env =
          { wallet := voteSuccessWallet net w ntfn newUtxos
          , outcome := .ok votes.length }) := by
  cases hbr : env.blockRefScript with
  | none =>
    exact Or.inl ⟨.blockRefErr, by simp [handleWinningTicketsNtfn, hbr], by simp⟩
  | some blockRef =>
    by_cases hneg : w.limitNbVotes < 0
    · exact Or.inl ⟨.makePanic,
        by simp [handleWinningTicketsNtfn, hbr, hneg], by simp⟩
    · cases hbv : buildVotes net w env blockRef ntfn.winningTickets [] with
      | error o =>
        exact Or.inl ⟨o,
          by simp [handleWinningTicketsNtfn, hbr, hneg, hbv],
          buildVotes_error_ne_ok net w env blockRef ntfn.winningTickets [] o hbv⟩
      | ok votes =>
        cases hsv : sendVotes env.sendResult 0 votes with
        | error i =>
          exact Or.inl ⟨.sendErr i,
            by simp [handleWinningTicketsNtfn, hbr, hneg, hbv, hsv], by simp⟩
        | ok us =>
          exact Or.inr ⟨blockRef, votes, us, rfl, hbv, hsv,
            by simp [handleWinningTicketsNtfn, hbr, hneg, hbv, hsv,
              voteSuccessWallet]⟩

/-- The vote handler never alters the ticket map — voted tickets are not
removed. -/
theorem voteHandler_tickets_eq (net : Params) (w : VotingWallet)
    (ntfn : winningTicketsNtfn) (env : VoteEnv) :
    (handleWinningTicketsNtfn net w ntfn env).wallet.tickets = w.tickets := by
  rcases voteHandler_cases net w ntfn env with ⟨o, heq, _⟩ |
    ⟨blockRef, votes, us, _, _, _, heq⟩ <;> simp [heq, voteSuccessWallet]

/-- The vote handler never alters the unlocked-funds pool. -/
theorem voteHandler_utxos_eq (net : Params) (w : VotingWallet)
    (ntfn : winningTicketsNtfn) (env : VoteEnv) :
    (handleWinningTicketsNtfn net w ntfn env).wallet.utxos = w.utxos := by
  rcases voteHandler_cases net w ntfn env with ⟨o, heq, _⟩ |
    ⟨blockRef, votes, us, _, _, _, heq⟩ <;> simp [heq, voteSuccessWallet]

/-- Inversion of a successful vote-handler run: the build and publish loops
succeeded, the vote count is the reported one, and the wallet changed only by
gaining the maturing entry at blockHeight + CoinbaseMaturity. -/
theorem voteHandler_ok_inv (net : Params) (w : VotingWallet)
    (ntfn : winningTicketsNtfn) (env : VoteEnv) (n : Nat)
    (h : (handleWinningTicketsNtfn net w ntfn env).outcome = .ok n) :
    ∃ blockRef votes newUtxos,
      env.blockRefScript = some blockRef ∧
      buildVotes net w env blockRef ntfn.winningTickets [] = .ok votes ∧
      sendVotes env.sendResult 0 votes = .ok newUtxos ∧
      votes.length = n ∧
      (handleWinningTicketsNtfn net w ntfn env).wallet =
        voteSuccessWallet net w ntfn newUtxos := by
  rcases voteHandler_cases net w ntfn env with ⟨o, heq, hne⟩ |
    ⟨blockRef, votes, us, h1, h2, h3, heq⟩
  · rw [heq] at h
    exact absurd h (hne n)
  · rw [heq] at h
    simp only [VoteOutcome.ok.injEq] at h
    exact ⟨blockRef, votes, us, h1, h2, h3, h, by rw [heq]⟩

/-- A non-`ok` vote-handler outcome leaves the wallet exactly as it was; in
particular a vote-submission failure creates no maturing entry, not even for
the votes submitted successfully before the failure. -/
theorem voteHandler_not_ok_eq (net : Params) (w : VotingWallet)
    (ntfn : winningTicketsNtfn) (env : VoteEnv)
    (h : ∀ n, (handleWinningTicketsNtfn net w ntfn env).outcome ≠ .ok n) :
    (handleWinningTicketsNtfn net w ntfn env).wallet = w := by
  rcases voteHandler_cases net w ntfn env with ⟨o, heq, _⟩ |
    ⟨blockRef, votes, us, _, _, _, heq⟩
  · rw [heq]
  · exfalso
    apply h votes.length
    rw [heq]

/-- Additional helper: the vote handler only reports `ok` when the configured
limit is non-negative (otherwise `make` panics first). -/
theorem voteHandler_ok_limit_nonneg (net : Params) (w : VotingWallet)
    (ntfn : winningTicketsNtfn) (env : VoteEnv) (n : Nat)
    (h : (handleWinningTicketsNtfn net w ntfn env).outcome = .ok n) :
    0 ≤ w.limitNbVotes := by
  by_contra hneg
  push_neg at hneg
  cases hbr : env.blockRefScript with
  | none => simp [handleWinningTicketsNtfn, hbr] at h
  | some blockRef => simp [handleWinningTicketsNtfn, hbr, hneg] at h

/-- Every entry of mkTicketEntries carries the given price. -/
theorem mkTicketEntries_price (hs : Nat → Hash) (price : Int) :
    ∀ (n i : Nat), ∀ e ∈ mkTicketEntries hs price i n, e.2.ticketPrice = price := by
  intro n
  induction n with
  | zero => intro i e he; simp [mkTicketEntries] at he
  | succ n ih =>
    intro i e he
    rcases List.mem_cons.mp he with rfl | he'
    · rfl
    · exact ih (i + 1) e he'

/-! ### Concrete fixtures used by counterexamples and witnesses -/

/-- Simnet-flavoured network parameters: 2 tickets per block, ticket maturity
2, coinbase maturity 4, stake validation height 16, minimum stake difficulty
600.  Purchase start height = 16 - 2 - 2 = 12. -/
def sampleParams : Params where
  ticketsPerBlock := 2
  ticketMaturity := 2
  coinbaseMaturity := 4
  stakeValidationHeight := 16
  minimumStakeDiff := 600
  stakeBaseSigScript := []

/-- A wallet holding three unlocked funds of 2400 atoms each. -/
def fundedWallet : VotingWallet where
  utxos := [{ outpoint := { hash := 1, index := 0, tree := txTreeRegular }, amount := 2400 },
            { outpoint := { hash := 1, index := 1, tree := txTreeRegular }, amount := 2400 },
            { outpoint := { hash := 1, index := 2, tree := txTreeRegular }, amount := 2400 }]
  tickets := []
  maturingVotes := []
  tspendVotes := []
  limitNbVotes := 2
  p2sstxVer := 0
  p2sstx := []
  commitScriptVer := 0
  commitScript := []
  p2pkhVer := 0
  p2pkh := []
  voteScriptVer := 0
  voteScript := []
  voteRetScriptVer := 0
  voteRetScript := []

/-- A wallet owning one outstanding ticket (hash 5, price 1000), vote limit 1. -/
def ticketedWallet : VotingWallet :=
  { fundedWallet with
    utxos := []
    tickets := [(5, { ticketPrice := 1000 })]
    limitNbVotes := 1 }

/-- Block environment: header decodes at height 12 with SBits 600, signing
succeeds, submission `i` is accepted with hash 100 + i. -/
def sampleBlockEnv : BlockEnv where
  decodedHeader := some { height := 12, sBits := 600 }
  signatureScript := fun _ _ => some [9]
  sendResult := fun i => some (100 + i)

/-- Block environment in which only the first ticket submission succeeds. -/
def failingSendBlockEnv : BlockEnv :=
  { sampleBlockEnv with sendResult := fun i => if i = 0 then some 100 else none }

/-- Vote environment: block-reference script builds, subsidy 300, all votes
sign and validate, submission `i` is accepted with hash 77 + i. -/
def sampleVoteEnv : VoteEnv where
  blockRefScript := some [7]
  subsidy := 300
  tspendScript := fun _ => some [8]
  signatureScript := fun _ _ => some [9]
  checkSSGen := fun _ => true
  sendResult := fun i => some (77 + i)

/-- Winning-tickets event at height 20 whose draw contains one non-owned
ticket (4) and the owned ticket 5. -/
def sampleNtfn : winningTicketsNtfn where
  blockHash := 42
  blockHeight := 20
  winningTickets := [4, 5, 6]

/-- The same draw without the non-owned ticket 4. -/
def sampleNtfnShort : winningTicketsNtfn where
  blockHash := 42
  blockHeight := 20
  winningTickets := [5, 6]

/-- Parameters with 5 tickets per block (vote limit stays 2 in the wallet). -/
def fiveTicketParams : Params := { sampleParams with ticketsPerBlock := 5 }

/-- GenerateBlocks iteration environment whose single poll sees 2 tickets and
2 votes in the mempool. -/
def lowTicketIterEnv : GenIterEnv where
  minerResult := some [99]
  events := [.test 2 2]

/-! ### Claim theorems -/

/-- C1: the claim states that every owned ticket that is voted on is removed
from the ticket map the moment the vote is cast.  The code never deletes from
`w.tickets`: the vote handler leaves the ticket map unchanged in every case
(first conjunct), and a concrete successful vote on owned ticket 5 leaves
ticket 5 in the map (remaining conjuncts), contradicting both the claim and
the field's own documentation ("tickets map the outstanding unspent
tickets"). -/
theorem c1_voted_ticket_never_removed :
    (∀ (net : Params) (w : VotingWallet) (ntfn : winningTicketsNtfn)
      (env : VoteEnv),
      (handleWinningTicketsNtfn net w ntfn env).wallet.tickets = w.tickets) ∧
    (handleWinningTicketsNtfn sampleParams ticketedWallet sampleNtfn
      sampleVoteEnv).outcome = .ok 1 ∧
    alLookup (handleWinningTicketsNtfn sampleParams ticketedWallet sampleNtfn
      sampleVoteEnv).wallet.tickets 5 = some { ticketPrice := 1000 } :=
  ⟨voteHandler_tickets_eq, by decide, by decide⟩

/-- C2: for every vote successfully cast at draw height H, the
maturing-payout schedule gains an entry at H + CoinbaseMaturity with one fund
per submitted vote, each of value ticketPrice + subsidy (conjunct 1); a
successful block-connected run at a height drains exactly the entry at that
height into the unlocked pool, leaving entries at other heights untouched
(conjunct 2); a block-connected run that returns early changes no maturing
entry (conjunct 3); and a vote-handler run never touches entries at other
heights (conjunct 4).  Together: the entry is consumed exactly when the
block-connected event for height H + CoinbaseMaturity completes successfully,
never before and never after. -/
theorem c2_maturing_payout_lifecycle (net : Params) :
    (∀ (w : VotingWallet) (ntfn : winningTicketsNtfn) (env : VoteEnv) (n : Nat),
      (handleWinningTicketsNtfn net w ntfn env).outcome = .ok n →
      ∃ funds,
        alLookup (handleWinningTicketsNtfn net w ntfn env).wallet.maturingVotes
            (ntfn.blockHeight + (net.coinbaseMaturity : Int)) = some funds ∧
        funds.length = n ∧
        ∀ u ∈ funds, ∃ wt ∈ ntfn.winningTickets, ∃ info,
          alLookup w.tickets wt = some info ∧
          u.amount = info.ticketPrice + env.subsidy) ∧
    (∀ (w : VotingWallet) (env : BlockEnv) (hdr : BlockHeader),
      env.decodedHeader = some hdr →
      (handleBlockConnectedNtfn net w env).outcome = .ok →
      (w.maturingVotes.map Prod.fst).Nodup →
      alLookup (handleBlockConnectedNtfn net w env).wallet.maturingVotes
          (hdr.height : Int) = none ∧
      (handleBlockConnectedNtfn net w env).wallet.utxos =
        w.utxos.take (w.utxos.length - net.ticketsPerBlock) ++
          (alLookup w.maturingVotes (hdr.height : Int)).getD [] ∧
      ∀ h2, h2 ≠ (hdr.height : Int) →
        alLookup (handleBlockConnectedNtfn net w env).wallet.maturingVotes h2 =
          alLookup w.maturingVotes h2) ∧
    (∀ (w : VotingWallet) (env : BlockEnv),
      (handleBlockConnectedNtfn net w env).outcome ≠ .ok →
      (handleBlockConnectedNtfn net w env).wallet.maturingVotes =
        w.maturingVotes) ∧
    (∀ (w : VotingWallet) (ntfn : winningTicketsNtfn) (env : VoteEnv) (h2 : Int),
      h2 ≠ ntfn.blockHeight + (net.coinbaseMaturity : Int) →
      alLookup (handleWinningTicketsNtfn net w ntfn env).wallet.maturingVotes h2 =
        alLookup w.maturingVotes h2) := by
  refine ⟨?_, ?_, ?_, ?_⟩
  · intro w ntfn env n hok
    obtain ⟨br, votes, us, _, hbv, hsv, hlen, hwal⟩ :=
      voteHandler_ok_inv net w ntfn env n hok
    obtain ⟨huslen, humem⟩ := sendVotes_ok env.sendResult votes 0 us hsv
    refine ⟨us, ?_, huslen.trans hlen, ?_⟩
    · rw [hwal]
      simp only [voteSuccessWallet]
      exact alLookup_insert_self _ _ _
    · intro u hu
      obtain ⟨v, hv, ha⟩ := humem u hu
      rcases buildVotes_ok_content net w env br ntfn.winningTickets [] votes
        hbv v hv with h0 | ⟨wt, hwt, info, hinfo, hval⟩
      · simp at h0
      · exact ⟨wt, hwt, info, hinfo, by rw [ha, hval]⟩
  · intro w env hdr hd hok hnd
    obtain ⟨hdr', hd', hge, hmat, hutx⟩ := handleBlock_ok_inv net w env hok
    rw [hd] at hd'
    obtain rfl : hdr = hdr' := Option.some_injective _ hd'
    refine ⟨?_, hutx, ?_⟩
    · rw [hmat]
      exact alLookup_erase_self _ _ hnd
    · intro h2 hne
      rw [hmat]
      exact alLookup_erase_ne _ _ _ hne
  · exact handleBlock_not_ok_maturing net
  · intro w ntfn env h2 hne
    rcases voteHandler_cases net w ntfn env with ⟨o, heq, _⟩ |
      ⟨br, votes, us, _, _, _, heq⟩
    · rw [heq]
    · rw [heq]
      simp only [voteSuccessWallet]
      exact alLookup_insert_ne _ _ _ _ hne

/-- Witness for C2 at concrete inputs: the successful vote at height 20 with
coinbase maturity 4 creates the entry at height 24 with one fund of value
1000 + 300, and a successful purchase run at height 24 drains exactly it. -/
theorem c2_witness :
    (∃ funds,
      alLookup (handleWinningTicketsNtfn sampleParams ticketedWallet sampleNtfn
          sampleVoteEnv).wallet.maturingVotes
          (sampleNtfn.blockHeight + (sampleParams.coinbaseMaturity : Int)) =
        some funds ∧
      funds.length = 1 ∧
      ∀ u ∈ funds, ∃ wt ∈ sampleNtfn.winningTickets, ∃ info,
        alLookup ticketedWallet.tickets wt = some info ∧
        u.amount = info.ticketPrice + sampleVoteEnv.subsidy) ∧
    ((handleBlockConnectedNtfn sampleParams fundedWallet
        sampleBlockEnv).outcome ≠ .ok →
      (handleBlockConnectedNtfn sampleParams fundedWallet
        sampleBlockEnv).wallet.maturingVotes = fundedWallet.maturingVotes) := by
  constructor
  · exact (c2_maturing_payout_lifecycle sampleParams).1 ticketedWallet
      sampleNtfn sampleVoteEnv 1 (by decide)
  · exact (c2_maturing_payout_lifecycle sampleParams).2.2.1 fundedWallet
      sampleBlockEnv

/-- Classification of winning-ticket loop errors: every error is an index
panic, a tspend-script error, a signing error or a CheckSSGen error. -/
theorem buildVotes_error_classify (net : Params) (w : VotingWallet)
    (env : VoteEnv) (blockRef : Script) :
    ∀ (wts : List Hash) (built : List MsgTx) (o : VoteOutcome),
    buildVotes net w env blockRef wts built = .error o →
    (∃ i, o = .indexPanic i) ∨ o = .tspendScriptErr ∨ o = .signErr ∨
      o = .checkSSGenErr := by
  intro wts
  induction wts with
  | nil => intro built o h; simp [buildVotes] at h
  | cons wt rest ih =>
    intro built o h
    cases hpw : processWinner net w env blockRef built.length wt with
    | skip =>
      simp only [buildVotes, hpw] at h
      exact ih built o h
    | fail o0 =>
      simp only [buildVotes, hpw] at h
      cases h
      rcases processWinner_fail net w env blockRef built.length wt _ hpw with
        ⟨_, rfl⟩ | rfl | rfl | rfl
      · exact Or.inl ⟨built.length, rfl⟩
      all_goals simp
    | built v =>
      simp only [buildVotes, hpw] at h
      by_cases hbr : (((built ++ [v]).length : Nat) : Int) ≥ w.limitNbVotes
      · rw [if_pos hbr] at h; simp at h
      · rw [if_neg hbr] at h
        exact ih (built ++ [v]) o h

/-- C3 counterexample: the claim says the sum of unlocked funds + locked
tickets + scheduled payouts changes only by the transaction fee.  In a
concrete successful vote-handler run, the sum increases by 1300 atoms — the
full ticket price (1000, still counted in the never-pruned ticket map) plus
the subsidy (300) — while the only transaction submitted has zero fee: its
outputs (summing to 1300) spend exactly the stakebase subsidy (300) plus the
ticket's locked 1000. -/
theorem c3_counterexample_vote_balance_jump :
    (handleWinningTicketsNtfn sampleParams ticketedWallet sampleNtfn
      sampleVoteEnv).outcome = .ok 1 ∧
    totalBalance (handleWinningTicketsNtfn sampleParams ticketedWallet
      sampleNtfn sampleVoteEnv).wallet = totalBalance ticketedWallet + 1300 ∧
    (buildVotes sampleParams ticketedWallet sampleVoteEnv [7]
        sampleNtfn.winningTickets []).toOption.map
      (fun votes => votes.map (fun v => (v.txOut.map (fun o => o.value)).sum)) =
      some [1300] ∧
    alLookup ticketedWallet.tickets 5 = some { ticketPrice := 1000 } ∧
    sampleVoteEnv.subsidy = 300 ∧
    (1300 : Int) ≠ 0 := by
  refine ⟨by decide, by decide, by decide, by decide, by decide, by decide⟩

/-- C3 amended: the sums are not conserved modulo fees alone.  For a fully
successful purchase run, the sum changes by k·ticketPrice minus the total of
the k consumed funds (the fees plus the change discarded to the burn
script).  For a successful vote run, the sum increases by the full scheduled
payout — ticketPrice + subsidy per vote — because the subsidy is newly
created and the voted ticket also remains counted in the ticket map. -/
theorem c3_amended_fund_conservation (net : Params) :
    (∀ (w : VotingWallet) (env : BlockEnv) (hdr : BlockHeader) (hs : Nat → Hash),
      env.decodedHeader = some hdr →
      ¬ ((hdr.height : Int) < ticketPurchaseStartHeight net) →
      ¬ (w.utxos.length < net.ticketsPerBlock) →
      (∀ i s, (env.signatureScript i s).isSome) →
      (∀ j, j < net.ticketsPerBlock → env.sendResult j = some (hs j)) →
      (∀ j, j < net.ticketsPerBlock → alLookup w.tickets (hs j) = none) →
      (∀ j j', j < net.ticketsPerBlock → j' < net.ticketsPerBlock →
        hs j = hs j' → j = j') →
      (w.maturingVotes.map Prod.fst).Nodup →
      totalBalance (handleBlockConnectedNtfn net w env).wallet =
        totalBalance w
          - utxosTotal (w.utxos.drop (w.utxos.length - net.ticketsPerBlock))
          + (net.ticketsPerBlock : Int) * (hdr.sBits + hdr.sBits.tdiv 6)) ∧
    (∀ (w : VotingWallet) (ntfn : winningTicketsNtfn) (env : VoteEnv) (n : Nat),
      (handleWinningTicketsNtfn net w ntfn env).outcome = .ok n →
      alLookup w.maturingVotes
        (ntfn.blockHeight + (net.coinbaseMaturity : Int)) = none →
      ∃ funds,
        alLookup (handleWinningTicketsNtfn net w ntfn env).wallet.maturingVotes
            (ntfn.blockHeight + (net.coinbaseMaturity : Int)) = some funds ∧
        totalBalance (handleWinningTicketsNtfn net w ntfn env).wallet =
          totalBalance w + utxosTotal funds ∧
        ∀ u ∈ funds, ∃ wt ∈ ntfn.winningTickets, ∃ info,
          alLookup w.tickets wt = some info ∧
          u.amount = info.ticketPrice + env.subsidy) := by
  constructor
  · intro w env hdr hs hd hh hlen hsig hsend hfresh hinj hnd
    rw [handleBlock_ok_eq net w env hdr hs hd hh hlen hsig hsend hfresh hinj]
    simp only [totalBalance, utxosTotal_append, ticketsTotal_append,
      ticketsTotal_mkTicketEntries,
      maturingTotal_erase w.maturingVotes ((hdr.height : Nat) : Int) hnd]
    have ht := utxosTotal_take_drop w.utxos (w.utxos.length - net.ticketsPerBlock)
    linarith
  · intro w ntfn env n hok hfreshkey
    obtain ⟨br, votes, us, _, hbv, hsv, hlen, hwal⟩ :=
      voteHandler_ok_inv net w ntfn env n hok
    obtain ⟨huslen, humem⟩ := sendVotes_ok env.sendResult votes 0 us hsv
    refine ⟨us, ?_, ?_, ?_⟩
    · rw [hwal]
      simp only [voteSuccessWallet]
      exact alLookup_insert_self _ _ _
    · rw [hwal]
      simp only [voteSuccessWallet, totalBalance,
        alInsert_of_lookup_none w.maturingVotes _ us hfreshkey,
        maturingTotal_append]
      simp [maturingTotal]
      ring
    · intro u hu
      obtain ⟨v, hv, ha⟩ := humem u hu
      rcases buildVotes_ok_content net w env br ntfn.winningTickets [] votes
        hbv v hv with h0 | ⟨wt, hwt, info, hinfo, hval⟩
      · simp at h0
      · exact ⟨wt, hwt, info, hinfo, by rw [ha, hval]⟩

/-- Witness for C3 amended at concrete inputs: a successful purchase of 2
tickets at price 700 from funds of 2400 each changes the sum by
2·700 − 4800, and the concrete vote run increases it by the scheduled 1300. -/
theorem c3_amended_witness :
    totalBalance (handleBlockConnectedNtfn sampleParams fundedWallet
        sampleBlockEnv).wallet =
      totalBalance fundedWallet - 4800 + 2 * 700 ∧
    ∃ funds,
      alLookup (handleWinningTicketsNtfn sampleParams ticketedWallet sampleNtfn
          sampleVoteEnv).wallet.maturingVotes
          (sampleNtfn.blockHeight + (sampleParams.coinbaseMaturity : Int)) =
        some funds ∧
      totalBalance (handleWinningTicketsNtfn sampleParams ticketedWallet
          sampleNtfn sampleVoteEnv).wallet =
        totalBalance ticketedWallet + utxosTotal funds ∧
      ∀ u ∈ funds, ∃ wt ∈ sampleNtfn.winningTickets, ∃ info,
        alLookup ticketedWallet.tickets wt = some info ∧
        u.amount = info.ticketPrice + sampleVoteEnv.subsidy := by
  constructor
  · have h := (c3_amended_fund_conservation sampleParams).1 fundedWallet
      sampleBlockEnv { height := 12, sBits := 600 } (fun j => 100 + j) rfl
      (by decide) (by decide) (fun i s => rfl) (fun j hj => rfl)
      (fun j hj => rfl) (fun j j' _ _ he => Nat.add_left_cancel he) (by decide)
    simpa using h
  · exact (c3_amended_fund_conservation sampleParams).2 ticketedWallet
      sampleNtfn sampleVoteEnv 1 (by decide) (by decide)

/-- C4: LimitNbVotes rejects a negative limit with the "cannot use negative"
error, rejects an increase with the distinct "cannot increase" error leaving
the limit unchanged, accepts any smaller non-negative limit, and every vote
batch a subsequent winning-tickets event produces contains at most the
configured number of votes. -/
theorem c4_limit_nb_votes (w : VotingWallet) (newLimit : Int) :
    (newLimit < 0 → LimitNbVotes w newLimit = (w, some .negative)) ∧
    (0 ≤ newLimit → newLimit > w.limitNbVotes →
      LimitNbVotes w newLimit = (w, some .cannotIncrease)) ∧
    (0 ≤ newLimit → newLimit ≤ w.limitNbVotes →
      LimitNbVotes w newLimit = ({ w with limitNbVotes := newLimit }, none)) ∧
    LimitError.negative.message ≠ LimitError.cannotIncrease.message ∧
    (∀ (net : Params) (w2 : VotingWallet) (ntfn : winningTicketsNtfn)
      (env : VoteEnv) (n : Nat),
      w2.limitNbVotes = newLimit →
      (handleWinningTicketsNtfn net w2 ntfn env).outcome = .ok n →
      (n : Int) ≤ newLimit) := by
  refine ⟨?_, ?_, ?_, by decide, ?_⟩
  · intro h
    simp [LimitNbVotes, h]
  · intro h0 h1
    have hn : ¬ (newLimit < 0) := by omega
    simp [LimitNbVotes, hn, h1]
  · intro h0 h1
    have hn : ¬ (newLimit < 0) := by omega
    have hn2 : ¬ (newLimit > w.limitNbVotes) := by omega
    simp [LimitNbVotes, hn, hn2]
  · intro net w2 ntfn env n hlim hok
    obtain ⟨br, votes, us, _, hbv, _, hlen, _⟩ :=
      voteHandler_ok_inv net w2 ntfn env n hok
    have hnn := voteHandler_ok_limit_nonneg net w2 ntfn env n hok
    have := buildVotes_length_le net w2 env br ntfn.winningTickets [] votes
      (by simpa using hnn) hbv
    rw [hlim] at this
    omega

/-- Witness for C4 at concrete inputs: the three LimitNbVotes behaviours on
the sample wallet (limit 2) and the batch bound on the concrete vote run. -/
theorem c4_witness :
    LimitNbVotes fundedWallet (-1) = (fundedWallet, some .negative) ∧
    LimitNbVotes fundedWallet 3 = (fundedWallet, some .cannotIncrease) ∧
    LimitNbVotes fundedWallet 1 =
      ({ fundedWallet with limitNbVotes := 1 }, none) ∧
    (1 : Int) ≤ 1 := by
  refine ⟨?_, ?_, ?_, ?_⟩
  · exact (c4_limit_nb_votes fundedWallet (-1)).1 (by decide)
  · exact (c4_limit_nb_votes fundedWallet 3).2.1 (by decide) (by decide)
  · exact (c4_limit_nb_votes fundedWallet 1).2.2.1 (by decide) (by decide)
  · exact (c4_limit_nb_votes fundedWallet 1).2.2.2.2 sampleParams
      ticketedWallet sampleNtfn sampleVoteEnv 1 rfl (by decide)

/-- C5: a block-connected event at a height at or above the purchase start,
with at least TicketsPerBlock unlocked funds and succeeding signer and
broadcasts, records exactly TicketsPerBlock new tickets, each at price
SBits + SBits/6 (truncated division), and removes exactly the TicketsPerBlock
most recently added funds from the unlocked pool (any votes maturing at this
height are then appended to the pool). -/
theorem c5_purchase_exact (net : Params) (w : VotingWallet) (env : BlockEnv)
    (hdr : BlockHeader) (hs : Nat → Hash)
    (hd : env.decodedHeader = some hdr)
    (hh : ¬ ((hdr.height : Int) < ticketPurchaseStartHeight net))
    (hlen : ¬ (w.utxos.length < net.ticketsPerBlock))
    (hsig : ∀ i s, (env.signatureScript i s).isSome)
    (hsend : ∀ j, j < net.ticketsPerBlock → env.sendResult j = some (hs j))
    (hfresh : ∀ j, j < net.ticketsPerBlock → alLookup w.tickets (hs j) = none)
    (hinj : ∀ j j', j < net.ticketsPerBlock → j' < net.ticketsPerBlock →
      hs j = hs j' → j = j') :
    (handleBlockConnectedNtfn net w env).outcome = .ok ∧
    (handleBlockConnectedNtfn net w env).wallet.tickets =
      w.tickets ++ mkTicketEntries hs (hdr.sBits + hdr.sBits.tdiv 6) 0
        net.ticketsPerBlock ∧
    (handleBlockConnectedNtfn net w env).wallet.tickets.length =
      w.tickets.length + net.ticketsPerBlock ∧
    (∀ e ∈ mkTicketEntries hs (hdr.sBits + hdr.sBits.tdiv 6) 0
        net.ticketsPerBlock, e.2.ticketPrice = hdr.sBits + hdr.sBits.tdiv 6) ∧
    (handleBlockConnectedNtfn net w env).wallet.utxos =
      w.utxos.take (w.utxos.length - net.ticketsPerBlock) ++
        (alLookup w.maturingVotes (hdr.height : Int)).getD [] := by
  have he := handleBlock_ok_eq net w env hdr hs hd hh hlen hsig hsend hfresh hinj
  rw [he]
  refine ⟨rfl, rfl, ?_, mkTicketEntries_price hs _ net.ticketsPerBlock 0, rfl⟩
  simp [mkTicketEntries_length]

/-- Witness for C5 at concrete inputs: height 12, SBits 600, two funds
consumed, two tickets recorded at price 700. -/
theorem c5_witness :
    (handleBlockConnectedNtfn sampleParams fundedWallet sampleBlockEnv).outcome
      = .ok ∧
    (handleBlockConnectedNtfn sampleParams fundedWallet
      sampleBlockEnv).wallet.tickets.length =
      fundedWallet.tickets.length + sampleParams.ticketsPerBlock := by
  have h := c5_purchase_exact sampleParams fundedWallet sampleBlockEnv
    { height := 12, sBits := 600 } (fun j => 100 + j) rfl (by decide)
    (by decide) (fun i s => rfl) (fun j hj => rfl) (fun j hj => rfl)
    (fun j j' _ _ he => Nat.add_left_cancel he)
  exact ⟨h.1, h.2.2.1⟩

/-- C6: the claim requires a timeout error naming "tickets" whenever the
mempool ticket count fails to reach the expected TicketsPerBlock within the
timeout.  The poll condition at votingwallet.go line 371 compares the ticket
count against nbVotes (the vote limit) instead of nbTickets: with 5 tickets
per block and a vote limit of 2, a single poll observing only 2 tickets (and
2 votes) satisfies the loop, and GenerateBlocks returns the block hash
successfully even though the expected ticket count 5 was never reached.  The
timeout branch itself (lines 356-361) checks the ticket count against
nbTickets, so the success check contradicts the error check of the same
loop. -/
theorem c6_generate_blocks_ticket_threshold_bug :
    fiveTicketParams.ticketsPerBlock = 5 ∧
    fundedWallet.limitNbVotes = 2 ∧
    lowTicketIterEnv.events = [.test 2 2] ∧
    (2 : Nat) < 5 ∧
    ticketPurchaseStartHeight fiveTicketParams = 12 ∧
    (GenerateBlocks fiveTicketParams fundedWallet 12 1 [lowTicketIterEnv]).1 =
      .ok [99] := by
  refine ⟨by decide, by decide, by decide, by decide, by decide, by decide⟩

/-- C7: a winning-ticket identifier the wallet does not own is skipped
wherever it occurs in the draw: the handler's entire result — every vote
built and submitted, the vote-limit budget consumed by the other tickets, and
the final wallet state — is identical to that of the same event without the
unknown identifier. -/
theorem c7_unowned_winner_skipped (net : Params) (w : VotingWallet)
    (env : VoteEnv) (bh : Hash) (hgt : Int) (pre post : List Hash) (wt : Hash)
    (hnone : alLookup w.tickets wt = none) :
    handleWinningTicketsNtfn net w
        { blockHash := bh, blockHeight := hgt,
          winningTickets := pre ++ wt :: post } env =
      handleWinningTicketsNtfn net w
        { blockHash := bh, blockHeight := hgt,
          winningTickets := pre ++ post } env := by
  cases hbr : env.blockRefScript with
  | none => simp [handleWinningTicketsNtfn, hbr]
  | some blockRef =>
    simp only [handleWinningTicketsNtfn, hbr]
    rw [buildVotes_skip net w env blockRef wt hnone post pre []]

/-- Witness for C7 at concrete inputs: dropping the unowned ticket 4 from the
draw [4, 5, 6] leaves the handler's result unchanged. -/
theorem c7_witness :
    handleWinningTicketsNtfn sampleParams ticketedWallet sampleNtfn
      sampleVoteEnv =
    handleWinningTicketsNtfn sampleParams ticketedWallet sampleNtfnShort
      sampleVoteEnv :=
  c7_unowned_winner_skipped sampleParams ticketedWallet sampleVoteEnv 42 20
    [] [5, 6] 4 (by decide)

/-- The iteration loop of GenerateBlocks threads the wallet through
unchanged: the Go method performs no writes to the shared state. -/
theorem generateBlocksLoop_wallet_eq (net : Params) (w : VotingWallet)
    (nbVotes : Int) (nbTickets : Nat) (startHeight : Int) :
    ∀ (n i : Nat) (envs : List GenIterEnv) (acc : List Hash),
    (generateBlocksLoop net w nbVotes nbTickets startHeight i n envs acc).2 = w := by
  intro n
  induction n with
  | zero => intro i envs acc; rfl
  | succ n ih =>
    intro i envs acc
    cases envs with
    | nil => rfl
    | cons env envs =>
      cases hm : env.minerResult with
      | none => simp [generateBlocksLoop, hm]
      | some hsl =>
        cases hh : hsl.head? with
        | none => simp [generateBlocksLoop, hm, hh]
        | some h =>
          simp only [generateBlocksLoop, hm, hh]
          split
          · exact ih (i + 1) envs (h :: acc)
          · split
            · exact ih (i + 1) envs (h :: acc)
            · rfl
            · rfl
            · rfl

/-- C8: GenerateBlocks never mutates the shared wallet state — the wallet
after the call (unlocked funds, ticket map, maturing-payout schedule, vote
limit, tspend votes and all script fields) is the one passed in, for every
parameter set, start height, block count and environment. -/
theorem c8_generate_blocks_frame (net : Params) (w : VotingWallet)
    (startHeight : Int) (nb : Nat) (envs : List GenIterEnv) :
    (GenerateBlocks net w startHeight nb envs).2 = w :=
  generateBlocksLoop_wallet_eq net w w.limitNbVotes net.ticketsPerBlock
    startHeight nb 0 envs []

/-- C9: with a vote limit of at least 1, every access `votes[nbVotes]` of the
vote handler is in bounds (the handler can never report an index panic or the
make panic) and at most limitNbVotes votes are constructed; with a vote limit
of 0 and at least one owned ticket among the winners (and a block-reference
script that builds), the first access indexes the zero-length vote array:
the handler reports the index panic at 0. -/
theorem c9_vote_array_access_bounds (net : Params) (w : VotingWallet)
    (ntfn : winningTicketsNtfn) (env : VoteEnv) :
    (1 ≤ w.limitNbVotes →
      (∀ i, (handleWinningTicketsNtfn net w ntfn env).outcome ≠ .indexPanic i) ∧
      (handleWinningTicketsNtfn net w ntfn env).outcome ≠ .makePanic ∧
      (∀ n, (handleWinningTicketsNtfn net w ntfn env).outcome = .ok n →
        (n : Int) ≤ w.limitNbVotes)) ∧
    (w.limitNbVotes = 0 →
      env.blockRefScript.isSome →
      (∃ wt ∈ ntfn.winningTickets, (alLookup w.tickets wt).isSome) →
      (handleWinningTicketsNtfn net w ntfn env).outcome = .indexPanic 0) := by
  constructor
  · intro hlim
    have hneg : ¬ (w.limitNbVotes < 0) := by omega
    refine ⟨?_, ?_, ?_⟩
    · intro i
      cases hbr : env.blockRefScript with
      | none => simp [handleWinningTicketsNtfn, hbr]
      | some blockRef =>
        simp only [handleWinningTicketsNtfn, hbr, if_neg hneg]
        cases hbv : buildVotes net w env blockRef ntfn.winningTickets [] with
        | error o =>
          dsimp only
          intro hcon
          subst hcon
          exact buildVotes_no_indexPanic net w env blockRef
            ntfn.winningTickets []
            (by simp only [List.length_nil, Nat.cast_zero]; omega) i hbv
        | ok votes =>
          cases hsv : sendVotes env.sendResult 0 votes with
          | error j => simp [hbv, hsv]
          | ok us => simp [hbv, hsv]
    · cases hbr : env.blockRefScript with
      | none => simp [handleWinningTicketsNtfn, hbr]
      | some blockRef =>
        simp only [handleWinningTicketsNtfn, hbr, if_neg hneg]
        cases hbv : buildVotes net w env blockRef ntfn.winningTickets [] with
        | error o =>
          dsimp only
          intro hcon
          subst hcon
          rcases buildVotes_error_classify net w env blockRef
            ntfn.winningTickets [] _ hbv with ⟨j, hj⟩ | hj | hj | hj <;>
            simp at hj
        | ok votes =>
          cases hsv : sendVotes env.sendResult 0 votes with
          | error j => simp [hbv, hsv]
          | ok us => simp [hbv, hsv]
    · intro n hok
      obtain ⟨br, votes, us, _, hbv, _, hlen, _⟩ :=
        voteHandler_ok_inv net w ntfn env n hok
      have := buildVotes_length_le net w env br ntfn.winningTickets [] votes
        (by simpa using le_of_lt (by omega : (0 : Int) < w.limitNbVotes)) hbv
      omega
  · intro hlim hbr hsome
    obtain ⟨blockRef, hbr'⟩ := Option.isSome_iff_exists.mp hbr
    have hneg : ¬ (w.limitNbVotes < 0) := by omega
    have hpanic := buildVotes_panic_of_limit_zero net w env blockRef hlim
      ntfn.winningTickets hsome
    simp [handleWinningTicketsNtfn, hbr', if_neg hneg, hpanic]

/-- Witness for C9 at concrete inputs: the wallet with limit 1 never panics
on the sample draw, and dropping the limit to 0 with owned ticket 5 among
the winners panics at index 0. -/
theorem c9_witness :
    ((handleWinningTicketsNtfn sampleParams ticketedWallet sampleNtfn
        sampleVoteEnv).outcome ≠ .makePanic) ∧
    (handleWinningTicketsNtfn sampleParams
        { ticketedWallet with limitNbVotes := 0 } sampleNtfn
        sampleVoteEnv).outcome = .indexPanic 0 := by
  constructor
  · exact ((c9_vote_array_access_bounds sampleParams ticketedWallet sampleNtfn
      sampleVoteEnv).1 (by decide)).2.1
  · exact (c9_vote_array_access_bounds sampleParams
      { ticketedWallet with limitNbVotes := 0 } sampleNtfn sampleVoteEnv).2
      (by decide) (by decide) ⟨5, by decide, by decide⟩

/-- C10: mid-batch submission failures abandon the remaining bookkeeping with
no rollback.  Purchase handler: if submission j0 is the first to fail, the
TicketsPerBlock consumed funds stay removed, exactly the tickets before j0
are recorded, and the maturing entry for the current height is not drained.
Vote handler: any submission failure leaves the wallet exactly as it was —
no maturing entry is created, not even for the votes already submitted. -/
theorem c10_midbatch_failure_no_rollback (net : Params) :
    (∀ (w : VotingWallet) (env : BlockEnv) (hdr : BlockHeader)
      (hs : Nat → Hash) (j0 : Nat),
      env.decodedHeader = some hdr →
      ¬ ((hdr.height : Int) < ticketPurchaseStartHeight net) →
      ¬ (w.utxos.length < net.ticketsPerBlock) →
      (∀ i s, (env.signatureScript i s).isSome) →
      j0 < net.ticketsPerBlock →
      (∀ j, j < j0 → env.sendResult j = some (hs j)) →
      env.sendResult j0 = none →
      (∀ j, j < j0 → alLookup w.tickets (hs j) = none) →
      (∀ j j', j < j0 → j' < j0 → hs j = hs j' → j = j') →
      (handleBlockConnectedNtfn net w env).outcome = .sendErr j0 ∧
      (handleBlockConnectedNtfn net w env).wallet.utxos =
        w.utxos.take (w.utxos.length - net.ticketsPerBlock) ∧
      (handleBlockConnectedNtfn net w env).wallet.tickets =
        w.tickets ++ mkTicketEntries hs (hdr.sBits + hdr.sBits.tdiv 6) 0 j0 ∧
      (handleBlockConnectedNtfn net w env).wallet.maturingVotes =
        w.maturingVotes) ∧
    (∀ (w : VotingWallet) (ntfn : winningTicketsNtfn) (env : VoteEnv) (i : Nat),
      (handleWinningTicketsNtfn net w ntfn env).outcome = .sendErr i →
      (handleWinningTicketsNtfn net w ntfn env).wallet = w) := by
  constructor
  · intro w env hdr hs j0 hd hh hlen hsig hj0 hsend hfail hfresh hinj
    rw [handleBlock_sendErr_eq net w env hdr hs j0 hd hh hlen hsig hj0 hsend
      hfail hfresh hinj]
    exact ⟨rfl, rfl, rfl, rfl⟩
  · intro w ntfn env i hout
    apply voteHandler_not_ok_eq
    intro n hcon
    rw [hout] at hcon
    simp at hcon

/-- Vote environment whose submissions all fail. -/
def failingSendVoteEnv : VoteEnv :=
  { sampleVoteEnv with sendResult := fun _ => none }

/-- Witness for C10 at concrete inputs: with the second of two ticket
submissions failing, the handler reports sendErr 1, both consumed funds stay
removed, one ticket is recorded, and the maturing schedule is untouched; a
vote-submission failure leaves the ticketed wallet unchanged. -/
theorem c10_witness :
    (handleBlockConnectedNtfn sampleParams fundedWallet
      failingSendBlockEnv).outcome = .sendErr 1 ∧
    (handleBlockConnectedNtfn sampleParams fundedWallet
      failingSendBlockEnv).wallet.maturingVotes = fundedWallet.maturingVotes ∧
    (handleWinningTicketsNtfn sampleParams ticketedWallet sampleNtfn
      failingSendVoteEnv).wallet = ticketedWallet := by
  have h := (c10_midbatch_failure_no_rollback sampleParams).1 fundedWallet
    failingSendBlockEnv { height := 12, sBits := 600 } (fun j => 100 + j) 1
    rfl (by decide) (by decide) (fun i s => rfl)
    (by decide)
    (fun j hj => by
      have : j = 0 := by omega
      subst this
      rfl)
    rfl
    (fun j hj => by
      have : j = 0 := by omega
      subst this
      rfl)
    (fun j j' hj hj' he => by omega)
  have h2 := (c10_midbatch_failure_no_rollback sampleParams).2 ticketedWallet
    sampleNtfn failingSendVoteEnv 0 (by decide)
  exact ⟨h.1, h.2.2.2, h2⟩
